import Mathlib

/-!
Verification of the keyword-counter repository (shared-lib): shallow embedding of
the per-language lexical scanners (`count_keywords` in `rust.rs`, `golang.rs`,
`javascript.rs`, `python.rs`), the file classifiers, the aggregation structure
`AnalysisResult` from `lib.rs`, and the directory walker `analyze_directory`.

Representation choices:
  * file contents are `List Char` (the character stream the Rust code iterates);
  * a `HashMap<String, usize>` is an association list `List (String × Nat)` whose
    entries are updated by `addEntry` (modelling `map.entry(k).or_insert(0) += v`);
    insertion order is fixed (the Rust `HashMap` iteration order is unspecified, so
    all map-level statements are phrased through `lookupCount` / `valsSum`, which
    are iteration-order independent);
  * the mutable locals of each scan loop (`counts`, `current_token`, `in_string`,
    `in_single_comment`, `in_multi_comment`, `string_char`) are threaded as
    explicit arguments of the loop, and the loop returns them bundled in a
    `ScanState` record when the character stream is exhausted;
  * `char::is_alphanumeric` is modelled by ASCII `Char.isAlphanum`; it agrees with
    the Rust predicate on all ASCII inputs (the non-ASCII Unicode classes are not
    modelled, and no statement below depends on them).
-/

/-- The single-quote character, written via its code point. -/
def squote : Char := Char.ofNat 39

/-- The backquote character (Go and JavaScript raw-string delimiter), written via
its code point. -/
def backquote : Char := Char.ofNat 96

/-- Identifier characters of the scanners: `c.is_alphanumeric() || c == '_'`. -/
def isIdentChar (c : Char) : Bool := c.isAlphanum || c = '_'

/-- Lookup in an association-list map; absent keys count as `0` (a missing
`HashMap` entry denotes zero occurrences). -/
def lookupCount : List (String × Nat) → String → Nat
  | [], _ => 0
  | (k', v) :: rest, k => if k' = k then v else lookupCount rest k

/-- Update `*map.entry(k).or_insert(0) += v`: add `v` to key `k`, inserting it (at the
end) if absent. -/
def addEntry : List (String × Nat) → String → Nat → List (String × Nat)
  | [], k, v => [(k, v)]
  | (k', v') :: rest, k, v =>
    if k' = k then (k', v' + v) :: rest else (k', v') :: addEntry rest k v

/-- Merge loop `for (keyword, count) in counts { *total.entry(keyword).or_insert(0) += count }`:
the merge loop of `analyze_file` and `AnalysisResult::add_file`. -/
def mergeInto (total : List (String × Nat)) (counts : List (String × Nat)) :
    List (String × Nat) :=
  counts.foldl (fun m kv => addEntry m kv.1 kv.2) total

/-- Sum of the values of a count map (`map.values().sum()`). -/
def valsSum : List (String × Nat) → Nat
  | [] => 0
  | (_, v) :: rest => v + valsSum rest

/-- Total value carried by key `k` across all entries of the list (equals
`lookupCount` when the keys are distinct). -/
def keySum : List (String × Nat) → String → Nat
  | [], _ => 0
  | (k', v) :: rest, k => (if k' = k then v else 0) + keySum rest k

/-- The keys of a count map are pairwise distinct (the `HashMap` invariant). -/
def uniqKeys (m : List (String × Nat)) : Prop := (m.map Prod.fst).Nodup

/-- Keyword table `RUST_KEYWORDS` from `rust.rs`. -/
def RUST_KEYWORDS : List String := [
  "i8", "i16", "i32", "i64", "i128", "isize", "u8", "u16", "u32", "u64", "u128", "usize", "f32",
  "f64", "bool", "char", "str",
  "if", "else", "match", "break", "continue", "loop", "while", "for",
  "struct", "enum", "trait", "type",
  "fn", "return", "move",
  "pub", "mut", "const", "static",
  "mod", "use", "crate", "extern", "super", "self", "Self",
  "async", "await",
  "as", "in", "let", "ref", "where", "unsafe", "true", "false",
  "abstract", "become", "box", "do", "final", "macro", "override", "priv", "try", "typeof",
  "unsized", "virtual", "yield"]

/-- Keyword table `GOLANG_KEYWORDS` from `golang.rs`. -/
def GOLANG_KEYWORDS : List String := [
  "break", "case", "chan", "const", "continue", "default", "defer", "else", "fallthrough",
  "for", "func", "go", "goto", "if", "import", "interface", "map", "package", "range",
  "return", "select", "struct", "switch", "type", "var",
  "bool", "byte", "complex64", "complex128", "error", "float32", "float64", "int", "int8",
  "int16", "int32", "int64", "rune", "string", "uint", "uint8", "uint16", "uint32", "uint64",
  "uintptr",
  "false", "true", "iota", "nil",
  "append", "cap", "close", "complex", "copy", "delete", "imag", "len", "make", "new",
  "panic", "print", "println", "real", "recover"]

/-- Keyword table `JAVASCRIPT_KEYWORDS` from `javascript.rs`. -/
def JAVASCRIPT_KEYWORDS : List String := [
  "abstract", "any", "as", "asserts", "async", "await", "boolean", "break", "case", "catch",
  "class", "const", "constructor", "continue", "debugger", "declare", "default", "delete",
  "do", "else", "enum", "export", "extends", "false", "finally", "for", "from", "function",
  "get", "if", "implements", "import", "in", "infer", "instanceof", "interface", "is",
  "keyof", "let", "namespace", "never", "new", "null", "number", "object", "of", "override",
  "package", "private", "protected", "public", "readonly", "require", "return", "set",
  "static", "string", "super", "switch", "symbol", "this", "throw", "true", "try", "type",
  "typeof", "undefined", "unique", "unknown", "var", "void", "while", "with", "yield",
  "bigint", "intrinsic", "global", "module", "satisfies", "out"]

/-- Keyword table `PYTHON_KEYWORDS` from `python.rs`. -/
def PYTHON_KEYWORDS : List String := [
  "False", "None", "True", "and", "as", "assert", "async", "await", "break", "class",
  "continue", "def", "del", "elif", "else", "except", "finally", "for", "from", "global",
  "if", "import", "in", "is", "lambda", "nonlocal", "not", "or", "pass", "raise", "return",
  "try", "while", "with", "yield",
  "abs", "all", "any", "ascii", "bin", "bool", "bytearray", "bytes", "callable", "chr",
  "classmethod", "compile", "complex", "delattr", "dict", "dir", "divmod", "enumerate",
  "eval", "exec", "filter", "float", "format", "frozenset", "getattr", "globals", "hasattr",
  "hash", "help", "hex", "id", "input", "int", "isinstance", "issubclass", "iter", "len",
  "list", "locals", "map", "max", "memoryview", "min", "next", "object", "oct", "open",
  "ord", "pow", "print", "property", "range", "repr", "reversed", "round", "set", "setattr",
  "slice", "sorted", "staticmethod", "str", "sum", "super", "tuple", "type", "vars", "zip",
  "Exception", "AttributeError", "IOError", "ImportError", "IndexError", "KeyError",
  "NameError", "RuntimeError", "SyntaxError", "TypeError", "ValueError", "ZeroDivisionError",
  "NotImplemented", "Ellipsis", "__debug__",
  "__init__", "__str__", "__repr__", "__len__", "__getitem__", "__setitem__", "__delitem__",
  "__contains__", "__call__", "__enter__", "__exit__", "__iter__", "__next__"]

/-- Translation of `check_and_count_token` (shared shape of the per-language versions; the
keyword table is the per-language parameter). -/
def checkAndCountToken (keywords : List String) (token : String)
    (counts : List (String × Nat)) : List (String × Nat) :=
  if keywords.contains token then addEntry counts token 1 else counts

/-- The `if !current_token.is_empty() { check_and_count_token(...); current_token.clear() }`
flush performed before every state change (the token becomes empty either way; this
returns the updated counts). -/
def flushCounts (keywords : List String) (tok : List Char) (m : List (String × Nat)) :
    List (String × Nat) :=
  if tok = [] then m else checkAndCountToken keywords (String.mk tok) m

/-- Final values of the mutable locals of the Rust / Go / JavaScript scan loops:
`in_string`, `in_single_comment`, `in_multi_comment`, `string_char`,
`current_token`, and the `counts` accumulator. -/
structure ScanState where
  inString : Bool
  inSingleComment : Bool
  inMultiComment : Bool
  stringChar : Char
  currentToken : List Char
  counts : List (String × Nat)
deriving DecidableEq

namespace Rust

/-- The `while let Some(c) = chars.next()` loop of `rust::count_keywords`, arm by
arm in source order; the arguments before the character list are the loop's
mutable locals `counts`, `current_token`, `in_string`, `in_single_comment`,
`in_multi_comment`, `string_char`.  A quirk preserved deliberately: a `/` in code
state whose successor is neither `/` nor `*` matches the first arm and does
nothing (it is dropped without flushing `current_token`). -/
def scanLoop : List (String × Nat) → List Char → Bool → Bool → Bool → Char → List Char →
    ScanState
  | m, tok, inStr, inSC, inMC, sc, [] => ⟨inStr, inSC, inMC, sc, tok, m⟩
  | m, tok, inStr, inSC, inMC, sc, c :: rest =>
    if c = '/' ∧ inStr = false ∧ inMC = false then
      match rest with
      | '/' :: rest2 => scanLoop (flushCounts RUST_KEYWORDS tok m) [] inStr true inMC sc rest2
      | '*' :: rest2 => scanLoop (flushCounts RUST_KEYWORDS tok m) [] inStr inSC true sc rest2
      | other => scanLoop m tok inStr inSC inMC sc other
    else if c = '*' ∧ inMC = true then
      match rest with
      | '/' :: rest2 => scanLoop m tok inStr inSC false sc rest2
      | other => scanLoop m tok inStr inSC inMC sc other
    else if c = '\n' ∧ inSC = true then
      scanLoop m tok inStr false inMC sc rest
    else if (c = '"' ∨ c = squote) ∧ inSC = false ∧ inMC = false then
      if inStr = false then
        scanLoop (flushCounts RUST_KEYWORDS tok m) [] true inSC inMC c rest
      else if c = sc then
        scanLoop m tok false inSC inMC '\x00' rest
      else
        scanLoop m tok inStr inSC inMC sc rest
    else if c = '\\' ∧ inStr = true then
      match rest with
      | _ :: rest2 => scanLoop m tok inStr inSC inMC sc rest2
      | [] => ⟨inStr, inSC, inMC, sc, tok, m⟩
    else if inStr = true ∨ inSC = true ∨ inMC = true then
      scanLoop m tok inStr inSC inMC sc rest
    else if isIdentChar c then
      scanLoop m (tok ++ [c]) inStr inSC inMC sc rest
    else
      scanLoop (flushCounts RUST_KEYWORDS tok m) [] inStr inSC inMC sc rest

/-- Translation of `rust::count_keywords`: run the loop from the initial state, then flush the
final token. -/
def count_keywords (content : List Char) : List (String × Nat) :=
  let st := scanLoop [] [] false false false '\x00' content
  flushCounts RUST_KEYWORDS st.currentToken st.counts

end Rust

namespace Golang

/-- The scan loop of `golang::count_keywords`: identical to the Rust loop except
that the string-delimiter set also contains the backquote, and a backslash is an
escape only when the open delimiter is not a backquote (raw string). -/
def scanLoop : List (String × Nat) → List Char → Bool → Bool → Bool → Char → List Char →
    ScanState
  | m, tok, inStr, inSC, inMC, sc, [] => ⟨inStr, inSC, inMC, sc, tok, m⟩
  | m, tok, inStr, inSC, inMC, sc, c :: rest =>
    if c = '/' ∧ inStr = false ∧ inMC = false then
      match rest with
      | '/' :: rest2 => scanLoop (flushCounts GOLANG_KEYWORDS tok m) [] inStr true inMC sc rest2
      | '*' :: rest2 => scanLoop (flushCounts GOLANG_KEYWORDS tok m) [] inStr inSC true sc rest2
      | other => scanLoop m tok inStr inSC inMC sc other
    else if c = '*' ∧ inMC = true then
      match rest with
      | '/' :: rest2 => scanLoop m tok inStr inSC false sc rest2
      | other => scanLoop m tok inStr inSC inMC sc other
    else if c = '\n' ∧ inSC = true then
      scanLoop m tok inStr false inMC sc rest
    else if (c = '"' ∨ c = squote ∨ c = backquote) ∧ inSC = false ∧ inMC = false then
      if inStr = false then
        scanLoop (flushCounts GOLANG_KEYWORDS tok m) [] true inSC inMC c rest
      else if c = sc then
        scanLoop m tok false inSC inMC '\x00' rest
      else
        scanLoop m tok inStr inSC inMC sc rest
    else if c = '\\' ∧ inStr = true ∧ sc ≠ backquote then
      match rest with
      | _ :: rest2 => scanLoop m tok inStr inSC inMC sc rest2
      | [] => ⟨inStr, inSC, inMC, sc, tok, m⟩
    else if inStr = true ∨ inSC = true ∨ inMC = true then
      scanLoop m tok inStr inSC inMC sc rest
    else if isIdentChar c then
      scanLoop m (tok ++ [c]) inStr inSC inMC sc rest
    else
      scanLoop (flushCounts GOLANG_KEYWORDS tok m) [] inStr inSC inMC sc rest

/-- Translation of `golang::count_keywords`. -/
def count_keywords (content : List Char) : List (String × Nat) :=
  let st := scanLoop [] [] false false false '\x00' content
  flushCounts GOLANG_KEYWORDS st.currentToken st.counts

end Golang

namespace Javascript

/-- The scan loop of `javascript::count_keywords`: the delimiter set is
`"`, `'`, and the backquote, and — unlike every other scanner in the repository —
there is no escape-sequence arm at all: a backslash inside a string is skipped by
the catch-all arm without consuming the following character. -/
def scanLoop : List (String × Nat) → List Char → Bool → Bool → Bool → Char → List Char →
    ScanState
  | m, tok, inStr, inSC, inMC, sc, [] => ⟨inStr, inSC, inMC, sc, tok, m⟩
  | m, tok, inStr, inSC, inMC, sc, c :: rest =>
    if c = '/' ∧ inStr = false ∧ inMC = false then
      match rest with
      | '/' :: rest2 =>
        scanLoop (flushCounts JAVASCRIPT_KEYWORDS tok m) [] inStr true inMC sc rest2
      | '*' :: rest2 =>
        scanLoop (flushCounts JAVASCRIPT_KEYWORDS tok m) [] inStr inSC true sc rest2
      | other => scanLoop m tok inStr inSC inMC sc other
    else if c = '*' ∧ inMC = true then
      match rest with
      | '/' :: rest2 => scanLoop m tok inStr inSC false sc rest2
      | other => scanLoop m tok inStr inSC inMC sc other
    else if c = '\n' ∧ inSC = true then
      scanLoop m tok inStr false inMC sc rest
    else if (c = '"' ∨ c = squote ∨ c = backquote) ∧ inSC = false ∧ inMC = false then
      if inStr = false then
        scanLoop (flushCounts JAVASCRIPT_KEYWORDS tok m) [] true inSC inMC c rest
      else if c = sc then
        scanLoop m tok false inSC inMC '\x00' rest
      else
        scanLoop m tok inStr inSC inMC sc rest
    else if inStr = true ∨ inSC = true ∨ inMC = true then
      scanLoop m tok inStr inSC inMC sc rest
    else if isIdentChar c || c = '$' then
      scanLoop m (tok ++ [c]) inStr inSC inMC sc rest
    else
      scanLoop (flushCounts JAVASCRIPT_KEYWORDS tok m) [] inStr inSC inMC sc rest

/-- Translation of `javascript::count_keywords`. -/
def count_keywords (content : List Char) : List (String × Nat) :=
  let st := scanLoop [] [] false false false '\x00' content
  flushCounts JAVASCRIPT_KEYWORDS st.currentToken st.counts

end Javascript

/-- Final values of the mutable locals of the Python scan loop: `in_string`,
`in_comment`, `string_char`, `in_triple_quote`, `triple_quote_type`,
`current_token`, `counts`. -/
structure PyScanState where
  inString : Bool
  inComment : Bool
  stringChar : Char
  inTripleQuote : Bool
  tripleQuoteType : Char
  currentToken : List Char
  counts : List (String × Nat)
deriving DecidableEq

namespace Python

/-- The scan loop of `python::count_keywords`.  Quote handling mirrors the nested
peeks of the source: on a quote in code state, two equal quotes followed by a
third open a triple-quoted string; exactly two equal quotes (an empty string
literal) set `in_string` — the scanner stays in string state, a quirk verified
below; a single quote opens an ordinary string.  The `fuel` argument only drives
the recursion (every iteration consumes at least one character, so any fuel of at
least the stream length is enough; `count_keywords` passes the length). -/
def scanLoop : Nat → List (String × Nat) → List Char → Bool → Bool → Char → Bool → Char →
    List Char → PyScanState
  | _, m, tok, inStr, inCom, sc, inTq, tq, [] => ⟨inStr, inCom, sc, inTq, tq, tok, m⟩
  | 0, m, tok, inStr, inCom, sc, inTq, tq, _ :: _ => ⟨inStr, inCom, sc, inTq, tq, tok, m⟩
  | fuel + 1, m, tok, inStr, inCom, sc, inTq, tq, c :: rest =>
    if c = '#' ∧ inStr = false ∧ inTq = false then
      scanLoop fuel (flushCounts PYTHON_KEYWORDS tok m) [] inStr true sc inTq tq rest
    else if c = '\n' ∧ inCom = true then
      scanLoop fuel m tok inStr false sc inTq tq rest
    else if (c = '"' ∨ c = squote) ∧ inCom = false then
      if inStr = false ∧ inTq = false then
        match rest with
        | c2 :: rest2 =>
          if c2 = c then
            match rest2 with
            | c3 :: rest3 =>
              if c3 = c then
                scanLoop fuel (flushCounts PYTHON_KEYWORDS tok m) [] inStr inCom sc true c rest3
              else
                scanLoop fuel (flushCounts PYTHON_KEYWORDS tok m) [] true inCom c inTq tq rest2
            | [] =>
              scanLoop fuel (flushCounts PYTHON_KEYWORDS tok m) [] true inCom c inTq tq rest2
          else
            scanLoop fuel (flushCounts PYTHON_KEYWORDS tok m) [] true inCom c inTq tq rest
        | [] => scanLoop fuel (flushCounts PYTHON_KEYWORDS tok m) [] true inCom c inTq tq rest
      else if inTq = true ∧ c = tq then
        match rest with
        | c2 :: rest2 =>
          if c2 = c then
            match rest2 with
            | c3 :: rest3 =>
              if c3 = c then scanLoop fuel m tok inStr inCom sc false '\x00' rest3
              else scanLoop fuel m tok inStr inCom sc inTq tq rest2
            | [] => scanLoop fuel m tok inStr inCom sc inTq tq rest2
          else scanLoop fuel m tok inStr inCom sc inTq tq rest
        | [] => scanLoop fuel m tok inStr inCom sc inTq tq rest
      else if inStr = true ∧ c = sc then
        scanLoop fuel m tok false inCom '\x00' inTq tq rest
      else
        scanLoop fuel m tok inStr inCom sc inTq tq rest
    else if c = '\\' ∧ inStr = true ∧ inTq = false then
      match rest with
      | _ :: rest2 => scanLoop fuel m tok inStr inCom sc inTq tq rest2
      | [] => ⟨inStr, inCom, sc, inTq, tq, tok, m⟩
    else if inStr = true ∨ inTq = true ∨ inCom = true then
      scanLoop fuel m tok inStr inCom sc inTq tq rest
    else if isIdentChar c then
      scanLoop fuel m (tok ++ [c]) inStr inCom sc inTq tq rest
    else
      scanLoop fuel (flushCounts PYTHON_KEYWORDS tok m) [] inStr inCom sc inTq tq rest

/-- Translation of `python::count_keywords`. -/
def count_keywords (content : List Char) : List (String × Nat) :=
  let st := scanLoop content.length [] [] false false '\x00' false '\x00' content
  flushCounts PYTHON_KEYWORDS st.currentToken st.counts

end Python

/-- The final component of a path (after the last `/`), modelling
`Path::file_name` for ordinary file paths (paths without `.`/`..` components and
without a trailing slash, the only shapes that occur below). -/
def pathFileName (p : String) : String :=
  String.mk ((p.data.reverse.takeWhile (fun c => c ≠ '/')).reverse)

/-- Model of `Path::extension`: `none` when the file name has no dot or starts with its
only dot; otherwise the portion after the last dot. -/
def pathExtension (p : String) : Option String :=
  let n := (pathFileName p).data
  let r := n.reverse.takeWhile (fun c => c ≠ '.')
  if r.length = n.length then none
  else if r.length + 1 = n.length then none
  else some (String.mk r.reverse)

/-- Model of `str::to_lowercase` (ASCII; no multi-character Unicode lowerings occur in the
extensions compared below). -/
def toLowerString (s : String) : String := String.mk (s.data.map Char.toLower)

namespace Rust

/-- Translation of `rust::is_rust_file`: `path.extension().map_or(false, |ext| ext == "rs")`. -/
def is_rust_file (p : String) : Bool :=
  match pathExtension p with
  | some ext => ext = "rs"
  | none => false

/-- Translation of `rust::should_skip_dir`. -/
def should_skip_dir (p : String) : Bool :=
  (["target", ".git", "node_modules"] : List String).contains (pathFileName p)

end Rust

namespace Ruby

/-- Translation of `ruby::is_ruby_file`: extension `rb`/`rake`/`gemspec`, otherwise one of the
convention file names (the extension branch wins when an extension exists). -/
def is_ruby_file (p : String) : Bool :=
  match pathExtension p with
  | some ext => (["rb", "rake", "gemspec"] : List String).contains ext
  | none =>
    (["Rakefile", "Gemfile", "Guardfile", "Capfile", "Vagrantfile"] : List String).contains
      (pathFileName p)

end Ruby

namespace Python

/-- Translation of `python::is_python_file`: the extension is lowercased before the comparison
with `py`/`pyw`/`pyi`; extension-less paths are matched against the convention
file names. -/
def is_python_file (p : String) : Bool :=
  match pathExtension p with
  | some ext => (["py", "pyw", "pyi"] : List String).contains (toLowerString ext)
  | none =>
    (["Pipfile", "Pipfile.lock", "__init__"] : List String).contains (pathFileName p)

end Python

/-- String prefix test on the character lists (`str::starts_with`). -/
def strStarts (s pre : String) : Bool := pre.data.isPrefixOf s.data

/-- Translation of `is_git_url` from `lib.rs`. -/
def is_git_url (input : String) : Bool :=
  strStarts input "https://github.com/" || strStarts input "http://github.com/" ||
  strStarts input "github.com/" || strStarts input "https://gitlab.com/" ||
  strStarts input "http://gitlab.com/" || strStarts input "gitlab.com/"

/-- The `Language` enum of `lib.rs` (named `SharedLib.Language`; plain `Language`
is taken by Mathlib). -/
inductive SharedLib.Language where
  | Rust | JavaScript | Ruby | Golang | Python | Dart
deriving DecidableEq

/-- The `AnalysisResult` struct of `lib.rs`. -/
structure AnalysisResult where
  language : SharedLib.Language
  file_count : Nat
  total_keywords : Nat
  keyword_counts : List (String × Nat)
  files_analyzed : List String
deriving DecidableEq

/-- Translation of `AnalysisResult::new`. -/
def AnalysisResult.new (language : SharedLib.Language) : AnalysisResult :=
  { language := language, file_count := 0, total_keywords := 0,
    keyword_counts := [], files_analyzed := [] }

/-- Translation of `AnalysisResult::add_file`: bump the file counter, record the path, merge the
per-file counts and add each merged count to `total_keywords`. -/
def AnalysisResult.add_file (r : AnalysisResult) (file_path : String)
    (counts : List (String × Nat)) : AnalysisResult :=
  { r with file_count := r.file_count + 1,
           files_analyzed := r.files_analyzed ++ [file_path],
           keyword_counts := mergeInto r.keyword_counts counts,
           total_keywords := r.total_keywords + valsSum counts }

/-- Abstract file-system node: what a path resolves to.  A directory carries its
entries as `(basename, node)` pairs in the order `fs::read_dir` yields them. -/
inductive FsEntry where
  | file : List Char → FsEntry
  | dir : List (String × FsEntry) → FsEntry

/-- Model of `Path::is_dir` on a resolved node. -/
def FsEntry.isDir : FsEntry → Bool
  | .dir _ => true
  | .file _ => false

/-- Model of `fs::read_to_string` on a resolved node: reading a directory is an error. -/
def FsEntry.readToString : FsEntry → Except String (List Char)
  | .file content => .ok content
  | .dir _ => .error "Is a directory"

mutual

/-- Translation of `rust::analyze_directory`, over the abstract file system: `target` is what
`path` resolves to (`none` when the path does not exist, in which case both the
`is_file` and `is_dir` tests fail and the function returns `Ok` without touching
the accumulators). -/
def Rust.analyze_directory (path : String) (target : Option FsEntry)
    (total_counts : List (String × Nat)) (file_count : Nat) :
    Except String (List (String × Nat) × Nat) :=
  match target with
  | none => .ok (total_counts, file_count)
  | some (.file content) =>
    if Rust.is_rust_file path then
      .ok (mergeInto total_counts (Rust.count_keywords content), file_count + 1)
    else
      .ok (total_counts, file_count)
  | some (.dir entries) => Rust.walk_entries path entries total_counts file_count

/-- The `for entry in fs::read_dir(path)?` loop of `rust::analyze_directory`. -/
def Rust.walk_entries (path : String) (entries : List (String × FsEntry))
    (total_counts : List (String × Nat)) (file_count : Nat) :
    Except String (List (String × Nat) × Nat) :=
  match entries with
  | [] => .ok (total_counts, file_count)
  | (name, e) :: rest =>
    let entry_path := path ++ "/" ++ name
    if e.isDir ∧ Rust.should_skip_dir entry_path = false then
      match Rust.analyze_directory entry_path (some e) total_counts file_count with
      | .ok (tc, fc) => Rust.walk_entries path rest tc fc
      | .error err => .error err
    else if Rust.is_rust_file entry_path then
      match e.readToString with
      | .ok content =>
        Rust.walk_entries path rest (mergeInto total_counts (Rust.count_keywords content))
          (file_count + 1)
      | .error err => .error err
    else
      Rust.walk_entries path rest total_counts file_count

end

/-- Translation of `KeywordAnalyzer::analyze_path` at `Language::Rust` (the other language arms
differ only in the walker invoked).  The git-clone branch (`is_git_url path`)
shells out to an external tool and is not modelled; the theorems below therefore
assume `is_git_url path = false`, under which `actual_path = path`.  Note that
`files_analyzed` keeps its initial empty value: the per-language walkers only
return counts and a file counter. -/
def KeywordAnalyzer.analyze_path (path : String) (target : Option FsEntry) :
    Except String AnalysisResult :=
  let result := AnalysisResult.new SharedLib.Language.Rust
  match Rust.analyze_directory path target [] 0 with
  | .error e => .error e
  | .ok (total_counts, file_count) =>
    .ok { result with file_count := file_count,
                      keyword_counts := total_counts,
                      total_keywords := valsSum total_counts }

/-- Folding a batch of `(path, per-file counts)` pairs into a fresh
`AnalysisResult` through `add_file` — the aggregation abstracted over the walk. -/
def foldAddFiles (ops : List (String × List (String × Nat))) : AnalysisResult :=
  ops.foldl (fun r op => r.add_file op.1 op.2) (AnalysisResult.new SharedLib.Language.Rust)

/-- The loop locals denote ordinary code (not inside a string or a comment). -/
def ScanState.isCode (st : ScanState) : Bool :=
  !st.inString && !st.inSingleComment && !st.inMultiComment

namespace Rust

/-- Predicate `stringStays q b` holds when scanning `b` from an open-string state with
delimiter `q` consumes all of `b` without ever closing the string: a backslash
consumes the following character, `q` would close the string, and every other
character is skipped.  This is the shape of the in-string transitions of
`scanLoop`, packaged as the decidable hypothesis "the string literal is never
closed before end of input". -/
def stringStays (q : Char) : List Char → Bool
  | [] => true
  | c :: rest =>
    if c = '\\' then
      match rest with
      | [] => true
      | _ :: rest2 => stringStays q rest2
    else if c = q then false
    else stringStays q rest

end Rust

/-- Final values of the locals of the token-collecting companion of the Rust scan
loop: same flags and token buffer, but the flushed tokens themselves are recorded
instead of the keyword tallies. -/
structure TokScanState where
  inString : Bool
  inSingleComment : Bool
  inMultiComment : Bool
  stringChar : Char
  currentToken : List Char
  tokens : List String
deriving DecidableEq

/-- Flush for the token-collecting companion: a non-empty buffer is appended to
the token list (whatever its membership in the keyword table). -/
def flushTokens (tok : List Char) (ts : List String) : List String :=
  if tok = [] then ts else ts ++ [String.mk tok]

namespace Rust

/-- Token-collecting companion of `scanLoop`: identical transitions, but every
flush records the whole accumulated token instead of testing it against
`RUST_KEYWORDS`.  It makes precise which strings the scanner ever submits to
`check_and_count_token`. -/
def tokensLoop : List String → List Char → Bool → Bool → Bool → Char → List Char →
    TokScanState
  | ts, tok, inStr, inSC, inMC, sc, [] => ⟨inStr, inSC, inMC, sc, tok, ts⟩
  | ts, tok, inStr, inSC, inMC, sc, c :: rest =>
    if c = '/' ∧ inStr = false ∧ inMC = false then
      match rest with
      | '/' :: rest2 => tokensLoop (flushTokens tok ts) [] inStr true inMC sc rest2
      | '*' :: rest2 => tokensLoop (flushTokens tok ts) [] inStr inSC true sc rest2
      | other => tokensLoop ts tok inStr inSC inMC sc other
    else if c = '*' ∧ inMC = true then
      match rest with
      | '/' :: rest2 => tokensLoop ts tok inStr inSC false sc rest2
      | other => tokensLoop ts tok inStr inSC inMC sc other
    else if c = '\n' ∧ inSC = true then
      tokensLoop ts tok inStr false inMC sc rest
    else if (c = '"' ∨ c = squote) ∧ inSC = false ∧ inMC = false then
      if inStr = false then
        tokensLoop (flushTokens tok ts) [] true inSC inMC c rest
      else if c = sc then
        tokensLoop ts tok false inSC inMC '\x00' rest
      else
        tokensLoop ts tok inStr inSC inMC sc rest
    else if c = '\\' ∧ inStr = true then
      match rest with
      | _ :: rest2 => tokensLoop ts tok inStr inSC inMC sc rest2
      | [] => ⟨inStr, inSC, inMC, sc, tok, ts⟩
    else if inStr = true ∨ inSC = true ∨ inMC = true then
      tokensLoop ts tok inStr inSC inMC sc rest
    else if isIdentChar c then
      tokensLoop ts (tok ++ [c]) inStr inSC inMC sc rest
    else
      tokensLoop (flushTokens tok ts) [] inStr inSC inMC sc rest

/-- The whole accumulated tokens the Rust scanner flushes on `content`, in
order. -/
def tokens (content : List Char) : List String :=
  let st := tokensLoop [] [] false false false '\x00' content
  flushTokens st.currentToken st.tokens

end Rust

/-! ### Map lemmas -/

theorem valsSum_addEntry (m : List (String × Nat)) (k : String) (v : Nat) :
    valsSum (addEntry m k v) = valsSum m + v := by
  induction m with
  | nil => simp [addEntry, valsSum]
  | cons kv rest ih =>
    obtain ⟨k', v'⟩ := kv
    by_cases h : k' = k
    · simp [addEntry, h, valsSum]
      omega
    · simp [addEntry, h, valsSum, ih]
      omega

theorem valsSum_mergeInto (m c : List (String × Nat)) :
    valsSum (mergeInto m c) = valsSum m + valsSum c := by
  induction c generalizing m with
  | nil => simp [mergeInto, valsSum]
  | cons kv rest ih =>
    obtain ⟨k, v⟩ := kv
    rw [show mergeInto m ((k, v) :: rest) = mergeInto (addEntry m k v) rest from rfl, ih,
      valsSum_addEntry]
    simp [valsSum]
    omega

theorem lookup_addEntry (m : List (String × Nat)) (k0 : String) (v : Nat) (k : String) :
    lookupCount (addEntry m k0 v) k = lookupCount m k + (if k0 = k then v else 0) := by
  induction m with
  | nil => by_cases h : k0 = k <;> simp [addEntry, lookupCount, h]
  | cons kv rest ih =>
    obtain ⟨k', v'⟩ := kv
    by_cases h1 : k' = k0
    · subst h1
      by_cases h2 : k' = k <;> simp [addEntry, lookupCount, h2] <;> omega
    · by_cases h2 : k' = k
      · have hk : ¬ k0 = k := fun hh => h1 (by rw [h2, hh])
        have hk2 : ¬ k = k0 := fun hh => hk hh.symm
        simp [addEntry, lookupCount, h1, h2, hk, hk2]
      · simp [addEntry, lookupCount, h1, h2, ih]

theorem lookup_mergeInto (c m : List (String × Nat)) (k : String) :
    lookupCount (mergeInto m c) k = lookupCount m k + keySum c k := by
  induction c generalizing m with
  | nil => simp [mergeInto, keySum]
  | cons kv rest ih =>
    obtain ⟨k0, v⟩ := kv
    rw [show mergeInto m ((k0, v) :: rest) = mergeInto (addEntry m k0 v) rest from rfl, ih,
      lookup_addEntry]
    simp [keySum]
    omega

theorem keySum_zero_of_not_mem (c : List (String × Nat)) (k : String)
    (h : k ∉ c.map Prod.fst) : keySum c k = 0 := by
  induction c with
  | nil => rfl
  | cons kv rest ih =>
    obtain ⟨k', v⟩ := kv
    simp only [List.map, List.mem_cons, not_or] at h
    have : ¬ k' = k := fun hh => h.1 hh.symm
    simp [keySum, this, ih h.2]

theorem keySum_of_uniq (c : List (String × Nat)) (k : String) (h : uniqKeys c) :
    keySum c k = lookupCount c k := by
  induction c with
  | nil => rfl
  | cons kv rest ih =>
    obtain ⟨k', v⟩ := kv
    rw [uniqKeys, List.map, List.nodup_cons] at h
    by_cases h2 : k' = k
    · subst h2
      simp [keySum, lookupCount, keySum_zero_of_not_mem rest k' h.1]
    · simp [keySum, lookupCount, h2, ih h.2]

theorem mem_keys_addEntry (m : List (String × Nat)) (k0 : String) (v : Nat) (a : String) :
    a ∈ (addEntry m k0 v).map Prod.fst ↔ a ∈ m.map Prod.fst ∨ a = k0 := by
  induction m with
  | nil => simp [addEntry]
  | cons kv rest ih =>
    obtain ⟨k', v'⟩ := kv
    by_cases h : k' = k0
    · subst h
      simp only [addEntry, if_pos rfl, List.map, List.mem_cons]
      tauto
    · simp only [addEntry, if_neg h, List.map, List.mem_cons, ih]
      tauto

theorem uniqKeys_addEntry (m : List (String × Nat)) (k0 : String) (v : Nat)
    (h : uniqKeys m) : uniqKeys (addEntry m k0 v) := by
  induction m with
  | nil => simp [addEntry, uniqKeys]
  | cons kv rest ih =>
    obtain ⟨k', v'⟩ := kv
    rw [uniqKeys, List.map, List.nodup_cons] at h
    by_cases hk : k' = k0
    · subst hk
      rw [uniqKeys]
      simp only [addEntry, if_pos rfl, List.map]
      rw [List.nodup_cons]
      exact ⟨h.1, h.2⟩
    · rw [uniqKeys]
      simp only [addEntry, if_neg hk, List.map]
      rw [List.nodup_cons]
      refine ⟨?_, ih h.2⟩
      intro hmem
      rcases (mem_keys_addEntry rest k0 v k').mp hmem with hh | hh
      · exact h.1 hh
      · exact hk hh

theorem uniqKeys_checkAndCountToken (keywords : List String) (t : String)
    (m : List (String × Nat)) (h : uniqKeys m) :
    uniqKeys (checkAndCountToken keywords t m) := by
  unfold checkAndCountToken
  split
  · exact uniqKeys_addEntry m t 1 h
  · exact h

/-! ### Scan-loop invariants -/

namespace Rust

theorem scanLoop_counts_pres (P : List (String × Nat) → Prop)
    (hP : ∀ t m, P m → P (checkAndCountToken RUST_KEYWORDS t m)) :
    ∀ (n : Nat) (l : List Char), l.length ≤ n →
      ∀ (m : List (String × Nat)) (tok : List Char) (inStr inSC inMC : Bool) (sc : Char),
        P m → P ((Rust.scanLoop m tok inStr inSC inMC sc l).counts) := by
  have hflush : ∀ tok m, P m → P (flushCounts RUST_KEYWORDS tok m) := by
    intro tok m hm
    unfold flushCounts
    split
    · exact hm
    · exact hP _ _ hm
  intro n
  induction n with
  | zero =>
    intro l hl m tok inStr inSC inMC sc hm
    have hnil : l = [] := List.eq_nil_of_length_eq_zero (Nat.le_zero.mp hl)
    subst hnil
    simpa [Rust.scanLoop] using hm
  | succ n ih =>
    intro l hl m tok inStr inSC inMC sc hm
    match l with
    | [] => simpa [Rust.scanLoop] using hm
    | c :: rest =>
      have hr : rest.length ≤ n := by simpa using Nat.succ_le_succ_iff.mp hl
      rw [Rust.scanLoop.eq_def]
      dsimp only
      repeat' split
      all_goals try exact ih _ hr _ _ _ _ _ _ hm
      all_goals try exact ih _ hr _ _ _ _ _ _ (hflush _ _ hm)
      all_goals try (refine ih _ ?_ _ _ _ _ _ _ hm; simp only [List.length_cons] at hr; omega)
      all_goals
        try (refine ih _ ?_ _ _ _ _ _ _ (hflush _ _ hm)
             simp only [List.length_cons] at hr; omega)

theorem count_keywords_uniqKeys (content : List Char) :
    uniqKeys (Rust.count_keywords content) := by
  have hm : uniqKeys ((Rust.scanLoop [] [] false false false '\x00' content).counts) :=
    scanLoop_counts_pres uniqKeys (fun t m => uniqKeys_checkAndCountToken RUST_KEYWORDS t m)
      content.length content (Nat.le_refl _) [] [] false false false '\x00' (by simp [uniqKeys])
  unfold Rust.count_keywords flushCounts
  dsimp only
  split
  · exact hm
  · exact uniqKeys_checkAndCountToken _ _ _ hm

end Rust

/-! ### Aggregation lemmas -/

theorem addFile_foldl_lookup (ops : List (String × List (String × Nat)))
    (r : AnalysisResult) (k : String) :
    lookupCount ((ops.foldl (fun r op => r.add_file op.1 op.2) r).keyword_counts) k =
      lookupCount r.keyword_counts k + (ops.map (fun op => keySum op.2 k)).sum := by
  induction ops generalizing r with
  | nil => simp
  | cons op rest ih =>
    rw [List.foldl_cons, ih,
      show (r.add_file op.1 op.2).keyword_counts = mergeInto r.keyword_counts op.2 from rfl,
      lookup_mergeInto]
    simp
    omega

theorem addFile_foldl_total (ops : List (String × List (String × Nat))) (r : AnalysisResult) :
    (ops.foldl (fun r op => r.add_file op.1 op.2) r).total_keywords =
      r.total_keywords + (ops.map (fun op => valsSum op.2)).sum := by
  induction ops generalizing r with
  | nil => simp
  | cons op rest ih =>
    rw [List.foldl_cons, ih,
      show (r.add_file op.1 op.2).total_keywords = r.total_keywords + valsSum op.2 from rfl]
    simp
    omega

theorem addFile_foldl_valsSum (ops : List (String × List (String × Nat))) (r : AnalysisResult) :
    valsSum ((ops.foldl (fun r op => r.add_file op.1 op.2) r).keyword_counts) =
      valsSum r.keyword_counts + (ops.map (fun op => valsSum op.2)).sum := by
  induction ops generalizing r with
  | nil => simp
  | cons op rest ih =>
    rw [List.foldl_cons, ih,
      show (r.add_file op.1 op.2).keyword_counts = mergeInto r.keyword_counts op.2 from rfl,
      valsSum_mergeInto]
    simp
    omega

theorem addFile_foldl_file_count (ops : List (String × List (String × Nat)))
    (r : AnalysisResult) :
    (ops.foldl (fun r op => r.add_file op.1 op.2) r).file_count = r.file_count + ops.length := by
  induction ops generalizing r with
  | nil => simp
  | cons op rest ih =>
    rw [List.foldl_cons, ih,
      show (r.add_file op.1 op.2).file_count = r.file_count + 1 from rfl]
    simp
    omega

theorem addFile_foldl_files_len (ops : List (String × List (String × Nat)))
    (r : AnalysisResult) :
    (ops.foldl (fun r op => r.add_file op.1 op.2) r).files_analyzed.length =
      r.files_analyzed.length + ops.length := by
  induction ops generalizing r with
  | nil => simp
  | cons op rest ih =>
    rw [List.foldl_cons, ih,
      show (r.add_file op.1 op.2).files_analyzed = r.files_analyzed ++ [op.1] from rfl]
    simp
    omega

/-! ### Single-iteration lemmas for the Rust scan loop

One lemma per arm of the `match` in `rust::count_keywords`, characterising one
iteration of `scanLoop` under the arm's guard (plus the negations of all earlier
guards).  They let inductions step the loop without re-splitting its body. -/

namespace Rust

theorem scanLoop_nil {m : List (String × Nat)} {tok : List Char}
    {inStr inSC inMC : Bool} {sc : Char} :
    scanLoop m tok inStr inSC inMC sc [] = ⟨inStr, inSC, inMC, sc, tok, m⟩ := rfl

theorem scanLoop_slash_slash {m : List (String × Nat)} {tok : List Char}
    {inStr inSC inMC : Bool} {sc c : Char} {r : List Char}
    (h1 : c = '/' ∧ inStr = false ∧ inMC = false) :
    scanLoop m tok inStr inSC inMC sc (c :: '/' :: r) =
      scanLoop (flushCounts RUST_KEYWORDS tok m) [] inStr true inMC sc r := by
  rw [scanLoop.eq_def]
  dsimp only
  rw [if_pos h1]
  simp

theorem scanLoop_slash_star {m : List (String × Nat)} {tok : List Char}
    {inStr inSC inMC : Bool} {sc c : Char} {r : List Char}
    (h1 : c = '/' ∧ inStr = false ∧ inMC = false) :
    scanLoop m tok inStr inSC inMC sc (c :: '*' :: r) =
      scanLoop (flushCounts RUST_KEYWORDS tok m) [] inStr inSC true sc r := by
  rw [scanLoop.eq_def]
  dsimp only
  rw [if_pos h1]
  simp

theorem scanLoop_slash_other {m : List (String × Nat)} {tok : List Char}
    {inStr inSC inMC : Bool} {sc c : Char} {other : List Char}
    (h1 : c = '/' ∧ inStr = false ∧ inMC = false)
    (ho1 : ∀ r2, other ≠ '/' :: r2) (ho2 : ∀ r2, other ≠ '*' :: r2) :
    scanLoop m tok inStr inSC inMC sc (c :: other) =
      scanLoop m tok inStr inSC inMC sc other := by
  rw [scanLoop.eq_def]
  dsimp only
  rw [if_pos h1]
  split
  · rename_i rest2
    exact absurd rfl (ho1 rest2)
  · rename_i rest2
    exact absurd rfl (ho2 rest2)
  · rfl

theorem scanLoop_star_slash {m : List (String × Nat)} {tok : List Char}
    {inStr inSC inMC : Bool} {sc c : Char} {r : List Char}
    (h1 : ¬(c = '/' ∧ inStr = false ∧ inMC = false)) (h2 : c = '*' ∧ inMC = true) :
    scanLoop m tok inStr inSC inMC sc (c :: '/' :: r) =
      scanLoop m tok inStr inSC false sc r := by
  rw [scanLoop.eq_def]
  dsimp only
  rw [if_neg h1, if_pos h2]
  simp

theorem scanLoop_star_other {m : List (String × Nat)} {tok : List Char}
    {inStr inSC inMC : Bool} {sc c : Char} {other : List Char}
    (h1 : ¬(c = '/' ∧ inStr = false ∧ inMC = false)) (h2 : c = '*' ∧ inMC = true)
    (ho1 : ∀ r2, other ≠ '/' :: r2) :
    scanLoop m tok inStr inSC inMC sc (c :: other) =
      scanLoop m tok inStr inSC inMC sc other := by
  rw [scanLoop.eq_def]
  dsimp only
  rw [if_neg h1, if_pos h2]
  split
  · rename_i rest2
    exact absurd rfl (ho1 rest2)
  · rfl

theorem scanLoop_newline {m : List (String × Nat)} {tok : List Char}
    {inStr inSC inMC : Bool} {sc c : Char} {r : List Char}
    (h1 : ¬(c = '/' ∧ inStr = false ∧ inMC = false)) (h2 : ¬(c = '*' ∧ inMC = true))
    (h3 : c = '\n' ∧ inSC = true) :
    scanLoop m tok inStr inSC inMC sc (c :: r) = scanLoop m tok inStr false inMC sc r := by
  rw [scanLoop.eq_def]
  dsimp only
  rw [if_neg h1, if_neg h2, if_pos h3]

theorem scanLoop_quote_open {m : List (String × Nat)} {tok : List Char}
    {inStr inSC inMC : Bool} {sc c : Char} {r : List Char}
    (h1 : ¬(c = '/' ∧ inStr = false ∧ inMC = false)) (h2 : ¬(c = '*' ∧ inMC = true))
    (h3 : ¬(c = '\n' ∧ inSC = true))
    (h4 : (c = '"' ∨ c = squote) ∧ inSC = false ∧ inMC = false) (hs : inStr = false) :
    scanLoop m tok inStr inSC inMC sc (c :: r) =
      scanLoop (flushCounts RUST_KEYWORDS tok m) [] true inSC inMC c r := by
  rw [scanLoop.eq_def]
  dsimp only
  rw [if_neg h1, if_neg h2, if_neg h3, if_pos h4, if_pos hs]

theorem scanLoop_quote_close {m : List (String × Nat)} {tok : List Char}
    {inStr inSC inMC : Bool} {sc c : Char} {r : List Char}
    (h1 : ¬(c = '/' ∧ inStr = false ∧ inMC = false)) (h2 : ¬(c = '*' ∧ inMC = true))
    (h3 : ¬(c = '\n' ∧ inSC = true))
    (h4 : (c = '"' ∨ c = squote) ∧ inSC = false ∧ inMC = false) (hs : inStr = true)
    (hcs : c = sc) :
    scanLoop m tok inStr inSC inMC sc (c :: r) =
      scanLoop m tok false inSC inMC '\x00' r := by
  rw [scanLoop.eq_def]
  dsimp only
  rw [if_neg h1, if_neg h2, if_neg h3, if_pos h4, if_neg (by simp [hs]), if_pos hcs]

theorem scanLoop_quote_skip {m : List (String × Nat)} {tok : List Char}
    {inStr inSC inMC : Bool} {sc c : Char} {r : List Char}
    (h1 : ¬(c = '/' ∧ inStr = false ∧ inMC = false)) (h2 : ¬(c = '*' ∧ inMC = true))
    (h3 : ¬(c = '\n' ∧ inSC = true))
    (h4 : (c = '"' ∨ c = squote) ∧ inSC = false ∧ inMC = false) (hs : inStr = true)
    (hcs : ¬ c = sc) :
    scanLoop m tok inStr inSC inMC sc (c :: r) =
      scanLoop m tok inStr inSC inMC sc r := by
  rw [scanLoop.eq_def]
  dsimp only
  rw [if_neg h1, if_neg h2, if_neg h3, if_pos h4, if_neg (by simp [hs]), if_neg hcs]

theorem scanLoop_backslash_cons {m : List (String × Nat)} {tok : List Char}
    {inStr inSC inMC : Bool} {sc c x : Char} {r : List Char}
    (h1 : ¬(c = '/' ∧ inStr = false ∧ inMC = false)) (h2 : ¬(c = '*' ∧ inMC = true))
    (h3 : ¬(c = '\n' ∧ inSC = true))
    (h4 : ¬((c = '"' ∨ c = squote) ∧ inSC = false ∧ inMC = false))
    (h5 : c = '\\' ∧ inStr = true) :
    scanLoop m tok inStr inSC inMC sc (c :: x :: r) =
      scanLoop m tok inStr inSC inMC sc r := by
  rw [scanLoop.eq_def]
  dsimp only
  rw [if_neg h1, if_neg h2, if_neg h3, if_neg h4, if_pos h5]

theorem scanLoop_backslash_nil {m : List (String × Nat)} {tok : List Char}
    {inStr inSC inMC : Bool} {sc c : Char}
    (h1 : ¬(c = '/' ∧ inStr = false ∧ inMC = false)) (h2 : ¬(c = '*' ∧ inMC = true))
    (h3 : ¬(c = '\n' ∧ inSC = true))
    (h4 : ¬((c = '"' ∨ c = squote) ∧ inSC = false ∧ inMC = false))
    (h5 : c = '\\' ∧ inStr = true) :
    scanLoop m tok inStr inSC inMC sc [c] = ⟨inStr, inSC, inMC, sc, tok, m⟩ := by
  rw [scanLoop.eq_def]
  dsimp only
  rw [if_neg h1, if_neg h2, if_neg h3, if_neg h4, if_pos h5]

theorem scanLoop_skip {m : List (String × Nat)} {tok : List Char}
    {inStr inSC inMC : Bool} {sc c : Char} {r : List Char}
    (h1 : ¬(c = '/' ∧ inStr = false ∧ inMC = false)) (h2 : ¬(c = '*' ∧ inMC = true))
    (h3 : ¬(c = '\n' ∧ inSC = true))
    (h4 : ¬((c = '"' ∨ c = squote) ∧ inSC = false ∧ inMC = false))
    (h5 : ¬(c = '\\' ∧ inStr = true))
    (h6 : inStr = true ∨ inSC = true ∨ inMC = true) :
    scanLoop m tok inStr inSC inMC sc (c :: r) = scanLoop m tok inStr inSC inMC sc r := by
  rw [scanLoop.eq_def]
  dsimp only
  rw [if_neg h1, if_neg h2, if_neg h3, if_neg h4, if_neg h5, if_pos h6]

theorem scanLoop_ident {m : List (String × Nat)} {tok : List Char}
    {inStr inSC inMC : Bool} {sc c : Char} {r : List Char}
    (h1 : ¬(c = '/' ∧ inStr = false ∧ inMC = false)) (h2 : ¬(c = '*' ∧ inMC = true))
    (h3 : ¬(c = '\n' ∧ inSC = true))
    (h4 : ¬((c = '"' ∨ c = squote) ∧ inSC = false ∧ inMC = false))
    (h5 : ¬(c = '\\' ∧ inStr = true))
    (h6 : ¬(inStr = true ∨ inSC = true ∨ inMC = true))
    (h7 : isIdentChar c = true) :
    scanLoop m tok inStr inSC inMC sc (c :: r) =
      scanLoop m (tok ++ [c]) inStr inSC inMC sc r := by
  rw [scanLoop.eq_def]
  dsimp only
  rw [if_neg h1, if_neg h2, if_neg h3, if_neg h4, if_neg h5, if_neg h6, if_pos h7]

theorem scanLoop_break {m : List (String × Nat)} {tok : List Char}
    {inStr inSC inMC : Bool} {sc c : Char} {r : List Char}
    (h1 : ¬(c = '/' ∧ inStr = false ∧ inMC = false)) (h2 : ¬(c = '*' ∧ inMC = true))
    (h3 : ¬(c = '\n' ∧ inSC = true))
    (h4 : ¬((c = '"' ∨ c = squote) ∧ inSC = false ∧ inMC = false))
    (h5 : ¬(c = '\\' ∧ inStr = true))
    (h6 : ¬(inStr = true ∨ inSC = true ∨ inMC = true))
    (h7 : ¬ isIdentChar c = true) :
    scanLoop m tok inStr inSC inMC sc (c :: r) =
      scanLoop (flushCounts RUST_KEYWORDS tok m) [] inStr inSC inMC sc r := by
  rw [scanLoop.eq_def]
  dsimp only
  rw [if_neg h1, if_neg h2, if_neg h3, if_neg h4, if_neg h5, if_neg h6, if_neg h7]

end Rust

theorem ScanState.isCode_mk {inStr inSC inMC : Bool} {sc : Char} {tok : List Char}
    {m : List (String × Nat)} :
    (ScanState.mk inStr inSC inMC sc tok m).isCode = true ↔
      inStr = false ∧ inSC = false ∧ inMC = false := by
  cases inStr <;> cases inSC <;> cases inMC <;> simp [ScanState.isCode]

namespace Rust

/-- Scanning from an open-string state with delimiter `q` over characters that
never close the string leaves every loop local unchanged. -/
theorem scanLoop_stringStays (q : Char) (hq : q = '"' ∨ q = squote) :
    ∀ (n : Nat) (b : List Char), b.length ≤ n →
      ∀ (m : List (String × Nat)) (tok : List Char),
        stringStays q b = true →
        scanLoop m tok true false false q b = ⟨true, false, false, q, tok, m⟩ := by
  intro n
  induction n with
  | zero =>
    intro b hb m tok _
    rw [List.eq_nil_of_length_eq_zero (Nat.le_zero.mp hb)]
    rfl
  | succ n ih =>
    intro b hb m tok hss
    match b, hb with
    | [], _ => rfl
    | c :: rest, hb =>
      have hlen : rest.length ≤ n := by
        simp only [List.length_cons] at hb
        omega
      have hq1 : ¬(c = '/' ∧ true = false ∧ false = false) := by simp
      have hq2 : ¬(c = '*' ∧ false = true) := by simp
      have hq3 : ¬(c = '\n' ∧ false = true) := by simp
      by_cases hbs : c = '\\'
      · have hq4 : ¬((c = '"' ∨ c = squote) ∧ false = false ∧ false = false) := by
          subst hbs
          rcases hq with rfl | rfl <;> simp [squote]
        rw [stringStays.eq_def] at hss
        dsimp only at hss
        rw [if_pos hbs] at hss
        match rest, hss, hlen with
        | [], _, _ => exact scanLoop_backslash_nil hq1 hq2 hq3 hq4 ⟨hbs, rfl⟩
        | x :: rest2, hss, hlen =>
          rw [scanLoop_backslash_cons hq1 hq2 hq3 hq4 ⟨hbs, rfl⟩]
          refine ih rest2 ?_ m tok (by simpa using hss)
          simp only [List.length_cons] at hlen
          omega
      · by_cases hcq : c = q
        · rw [stringStays.eq_def] at hss
          dsimp only at hss
          rw [if_neg hbs, if_pos hcq] at hss
          simp at hss
        · have hss' : stringStays q rest = true := by
            rw [stringStays.eq_def] at hss
            dsimp only at hss
            rwa [if_neg hbs, if_neg hcq] at hss
          by_cases hq4 : (c = '"' ∨ c = squote) ∧ false = false ∧ false = false
          · rw [scanLoop_quote_skip hq1 hq2 hq3 hq4 rfl hcq]
            exact ih rest hlen m tok hss'
          · have hq5 : ¬(c = '\\' ∧ true = true) := by simp [hbs]
            rw [scanLoop_skip hq1 hq2 hq3 hq4 hq5 (Or.inl rfl)]
            exact ih rest hlen m tok hss'

/-- Opening the never-closed string literal at the head of the remaining input:
the scan of `q :: b` coincides with the scan that stops right after the quote. -/
theorem scanLoop_open_swallow (q : Char) (hq : q = '"' ∨ q = squote)
    (b : List Char) (hb : stringStays q b = true)
    (m : List (String × Nat)) (tok : List Char) (sc : Char) :
    scanLoop m tok false false false sc (q :: b) =
      scanLoop m tok false false false sc [q] := by
  have hq1 : ¬(q = '/' ∧ false = false ∧ false = false) := by
    rcases hq with rfl | rfl <;> simp [squote]
  have hq2 : ¬(q = '*' ∧ false = true) := by simp
  have hq3 : ¬(q = '\n' ∧ false = true) := by simp
  have hq4 : (q = '"' ∨ q = squote) ∧ false = false ∧ false = false := ⟨hq, rfl, rfl⟩
  rw [scanLoop_quote_open hq1 hq2 hq3 hq4 rfl, scanLoop_quote_open hq1 hq2 hq3 hq4 rfl,
    scanLoop_stringStays q hq b.length b le_rfl _ _ hb]
  rfl

/-- Main lemma for the unterminated-string claim: if scanning the prefix `a`
ends in plain code state, appending a quote followed by characters that never
close the string yields the same loop state as appending just the quote. -/
theorem scanLoop_unterminated (q : Char) (hq : q = '"' ∨ q = squote)
    (b : List Char) (hb : stringStays q b = true) :
    ∀ (n : Nat) (a : List Char), a.length ≤ n →
      ∀ (m : List (String × Nat)) (tok : List Char) (inStr inSC inMC : Bool) (sc : Char),
        (scanLoop m tok inStr inSC inMC sc a).isCode = true →
        scanLoop m tok inStr inSC inMC sc (a ++ q :: b) =
          scanLoop m tok inStr inSC inMC sc (a ++ [q]) := by
  have hqnotslash : ∀ (l r2 : List Char), (q :: l) ≠ '/' :: r2 := by
    intro l r2 hh
    rw [List.cons.injEq] at hh
    rcases hq with rfl | rfl <;> simp [squote] at hh
  have hqnotstar : ∀ (l r2 : List Char), (q :: l) ≠ '*' :: r2 := by
    intro l r2 hh
    rw [List.cons.injEq] at hh
    rcases hq with rfl | rfl <;> simp [squote] at hh
  intro n
  induction n with
  | zero =>
    intro a ha m tok inStr inSC inMC sc hcode
    rw [List.eq_nil_of_length_eq_zero (Nat.le_zero.mp ha)]
    rw [List.eq_nil_of_length_eq_zero (Nat.le_zero.mp ha)] at hcode
    rw [scanLoop_nil] at hcode
    obtain ⟨hs1, hs2, hs3⟩ := ScanState.isCode_mk.mp hcode
    subst hs1; subst hs2; subst hs3
    simpa using scanLoop_open_swallow q hq b hb m tok sc
  | succ n ih =>
    intro a ha m tok inStr inSC inMC sc hcode
    match a, ha with
    | [], _ =>
      rw [scanLoop_nil] at hcode
      obtain ⟨hs1, hs2, hs3⟩ := ScanState.isCode_mk.mp hcode
      subst hs1; subst hs2; subst hs3
      simpa using scanLoop_open_swallow q hq b hb m tok sc
    | c :: a', ha =>
      have hlen : a'.length ≤ n := by
        simp only [List.length_cons] at ha
        omega
      simp only [List.cons_append]
      by_cases h1 : c = '/' ∧ inStr = false ∧ inMC = false
      · match a', hcode, hlen with
        | [], hcode, _ =>
          rw [scanLoop_slash_other h1 (fun r2 => List.noConfusion) (fun r2 => List.noConfusion)]
            at hcode
          rw [scanLoop_nil] at hcode
          obtain ⟨hs1, hs2, hs3⟩ := ScanState.isCode_mk.mp hcode
          subst hs1; subst hs2; subst hs3
          simp only [List.nil_append]
          rw [scanLoop_slash_other h1 (hqnotslash b) (hqnotstar b),
            scanLoop_slash_other h1 (hqnotslash []) (hqnotstar [])]
          exact scanLoop_open_swallow q hq b hb m tok sc
        | c2 :: a'', hcode, hlen =>
          have hlen2 : a''.length ≤ n := by
            simp only [List.length_cons] at hlen
            omega
          by_cases h2 : c2 = '/'
          · subst h2
            rw [scanLoop_slash_slash h1] at hcode
            simp only [List.cons_append]
            rw [scanLoop_slash_slash h1, scanLoop_slash_slash h1]
            exact ih a'' hlen2 _ _ _ _ _ _ hcode
          · by_cases h3 : c2 = '*'
            · subst h3
              rw [scanLoop_slash_star h1] at hcode
              simp only [List.cons_append]
              rw [scanLoop_slash_star h1, scanLoop_slash_star h1]
              exact ih a'' hlen2 _ _ _ _ _ _ hcode
            · have hno1 : ∀ r2, (c2 :: a'') ≠ '/' :: r2 := by
                intro r2 hh
                rw [List.cons.injEq] at hh
                exact h2 hh.1
              have hno2 : ∀ r2, (c2 :: a'') ≠ '*' :: r2 := by
                intro r2 hh
                rw [List.cons.injEq] at hh
                exact h3 hh.1
              have hno1' : ∀ (X : List Char) r2, (c2 :: (a'' ++ X)) ≠ '/' :: r2 := by
                intro X r2 hh
                rw [List.cons.injEq] at hh
                exact h2 hh.1
              have hno2' : ∀ (X : List Char) r2, (c2 :: (a'' ++ X)) ≠ '*' :: r2 := by
                intro X r2 hh
                rw [List.cons.injEq] at hh
                exact h3 hh.1
              rw [scanLoop_slash_other h1 hno1 hno2] at hcode
              simp only [List.cons_append]
              rw [scanLoop_slash_other h1 (hno1' (q :: b)) (hno2' (q :: b)),
                scanLoop_slash_other h1 (hno1' [q]) (hno2' [q])]
              have := ih (c2 :: a'') hlen _ _ _ _ _ _ hcode
              simpa using this
      · by_cases h2 : c = '*' ∧ inMC = true
        · match a', hcode, hlen with
          | [], hcode, _ =>
            rw [scanLoop_star_other h1 h2 (fun r2 => List.noConfusion)] at hcode
            rw [scanLoop_nil] at hcode
            obtain ⟨hs1, hs2, hs3⟩ := ScanState.isCode_mk.mp hcode
            exact absurd h2.2 (by rw [hs3]; simp)
          | c2 :: a'', hcode, hlen =>
            have hlen2 : a''.length ≤ n := by
              simp only [List.length_cons] at hlen
              omega
            by_cases h3 : c2 = '/'
            · subst h3
              rw [scanLoop_star_slash h1 h2] at hcode
              simp only [List.cons_append]
              rw [scanLoop_star_slash h1 h2, scanLoop_star_slash h1 h2]
              exact ih a'' hlen2 _ _ _ _ _ _ hcode
            · have hno1 : ∀ r2, (c2 :: a'') ≠ '/' :: r2 := by
                intro r2 hh
                rw [List.cons.injEq] at hh
                exact h3 hh.1
              have hno1' : ∀ (X : List Char) r2, (c2 :: (a'' ++ X)) ≠ '/' :: r2 := by
                intro X r2 hh
                rw [List.cons.injEq] at hh
                exact h3 hh.1
              rw [scanLoop_star_other h1 h2 hno1] at hcode
              simp only [List.cons_append]
              rw [scanLoop_star_other h1 h2 (hno1' (q :: b)),
                scanLoop_star_other h1 h2 (hno1' [q])]
              have := ih (c2 :: a'') hlen _ _ _ _ _ _ hcode
              simpa using this
        · by_cases h3 : c = '\n' ∧ inSC = true
          · rw [scanLoop_newline h1 h2 h3] at hcode
            rw [scanLoop_newline h1 h2 h3, scanLoop_newline h1 h2 h3]
            exact ih a' hlen _ _ _ _ _ _ hcode
          · by_cases h4 : (c = '"' ∨ c = squote) ∧ inSC = false ∧ inMC = false
            · by_cases hstr : inStr = false
              · rw [scanLoop_quote_open h1 h2 h3 h4 hstr] at hcode
                rw [scanLoop_quote_open h1 h2 h3 h4 hstr,
                  scanLoop_quote_open h1 h2 h3 h4 hstr]
                exact ih a' hlen _ _ _ _ _ _ hcode
              · have hstr' : inStr = true := by
                  cases inStr
                  · exact absurd rfl hstr
                  · rfl
                by_cases hcs : c = sc
                · rw [scanLoop_quote_close h1 h2 h3 h4 hstr' hcs] at hcode
                  rw [scanLoop_quote_close h1 h2 h3 h4 hstr' hcs,
                    scanLoop_quote_close h1 h2 h3 h4 hstr' hcs]
                  exact ih a' hlen _ _ _ _ _ _ hcode
                · rw [scanLoop_quote_skip h1 h2 h3 h4 hstr' hcs] at hcode
                  rw [scanLoop_quote_skip h1 h2 h3 h4 hstr' hcs,
                    scanLoop_quote_skip h1 h2 h3 h4 hstr' hcs]
                  exact ih a' hlen _ _ _ _ _ _ hcode
            · by_cases h5 : c = '\\' ∧ inStr = true
              · match a', hcode, hlen with
                | [], hcode, _ =>
                  rw [scanLoop_backslash_nil h1 h2 h3 h4 h5] at hcode
                  obtain ⟨hs1, hs2, hs3⟩ := ScanState.isCode_mk.mp hcode
                  exact absurd h5.2 (by rw [hs1]; simp)
                | x :: a'', hcode, hlen =>
                  have hlen2 : a''.length ≤ n := by
                    simp only [List.length_cons] at hlen
                    omega
                  rw [scanLoop_backslash_cons h1 h2 h3 h4 h5] at hcode
                  simp only [List.cons_append]
                  rw [scanLoop_backslash_cons h1 h2 h3 h4 h5,
                    scanLoop_backslash_cons h1 h2 h3 h4 h5]
                  exact ih a'' hlen2 _ _ _ _ _ _ hcode
              · by_cases h6 : inStr = true ∨ inSC = true ∨ inMC = true
                · rw [scanLoop_skip h1 h2 h3 h4 h5 h6] at hcode
                  rw [scanLoop_skip h1 h2 h3 h4 h5 h6, scanLoop_skip h1 h2 h3 h4 h5 h6]
                  exact ih a' hlen _ _ _ _ _ _ hcode
                · by_cases h7 : isIdentChar c = true
                  · rw [scanLoop_ident h1 h2 h3 h4 h5 h6 h7] at hcode
                    rw [scanLoop_ident h1 h2 h3 h4 h5 h6 h7,
                      scanLoop_ident h1 h2 h3 h4 h5 h6 h7]
                    exact ih a' hlen _ _ _ _ _ _ hcode
                  · rw [scanLoop_break h1 h2 h3 h4 h5 h6 h7] at hcode
                    rw [scanLoop_break h1 h2 h3 h4 h5 h6 h7,
                      scanLoop_break h1 h2 h3 h4 h5 h6 h7]
                    exact ih a' hlen _ _ _ _ _ _ hcode

end Rust

/-! ### Single-iteration lemmas for the token-collecting companion loop -/

namespace Rust

theorem tokensLoop_nil {ts : List String} {tok : List Char}
    {inStr inSC inMC : Bool} {sc : Char} :
    tokensLoop ts tok inStr inSC inMC sc [] = ⟨inStr, inSC, inMC, sc, tok, ts⟩ := rfl

theorem tokensLoop_slash_slash {ts : List String} {tok : List Char}
    {inStr inSC inMC : Bool} {sc c : Char} {r : List Char}
    (h1 : c = '/' ∧ inStr = false ∧ inMC = false) :
    tokensLoop ts tok inStr inSC inMC sc (c :: '/' :: r) =
      tokensLoop (flushTokens tok ts) [] inStr true inMC sc r := by
  rw [tokensLoop.eq_def]
  dsimp only
  rw [if_pos h1]
  simp

theorem tokensLoop_slash_star {ts : List String} {tok : List Char}
    {inStr inSC inMC : Bool} {sc c : Char} {r : List Char}
    (h1 : c = '/' ∧ inStr = false ∧ inMC = false) :
    tokensLoop ts tok inStr inSC inMC sc (c :: '*' :: r) =
      tokensLoop (flushTokens tok ts) [] inStr inSC true sc r := by
  rw [tokensLoop.eq_def]
  dsimp only
  rw [if_pos h1]
  simp

theorem tokensLoop_slash_other {ts : List String} {tok : List Char}
    {inStr inSC inMC : Bool} {sc c : Char} {other : List Char}
    (h1 : c = '/' ∧ inStr = false ∧ inMC = false)
    (ho1 : ∀ r2, other ≠ '/' :: r2) (ho2 : ∀ r2, other ≠ '*' :: r2) :
    tokensLoop ts tok inStr inSC inMC sc (c :: other) =
      tokensLoop ts tok inStr inSC inMC sc other := by
  rw [tokensLoop.eq_def]
  dsimp only
  rw [if_pos h1]
  split
  · rename_i rest2
    exact absurd rfl (ho1 rest2)
  · rename_i rest2
    exact absurd rfl (ho2 rest2)
  · rfl

theorem tokensLoop_star_slash {ts : List String} {tok : List Char}
    {inStr inSC inMC : Bool} {sc c : Char} {r : List Char}
    (h1 : ¬(c = '/' ∧ inStr = false ∧ inMC = false)) (h2 : c = '*' ∧ inMC = true) :
    tokensLoop ts tok inStr inSC inMC sc (c :: '/' :: r) =
      tokensLoop ts tok inStr inSC false sc r := by
  rw [tokensLoop.eq_def]
  dsimp only
  rw [if_neg h1, if_pos h2]
  simp

theorem tokensLoop_star_other {ts : List String} {tok : List Char}
    {inStr inSC inMC : Bool} {sc c : Char} {other : List Char}
    (h1 : ¬(c = '/' ∧ inStr = false ∧ inMC = false)) (h2 : c = '*' ∧ inMC = true)
    (ho1 : ∀ r2, other ≠ '/' :: r2) :
    tokensLoop ts tok inStr inSC inMC sc (c :: other) =
      tokensLoop ts tok inStr inSC inMC sc other := by
  rw [tokensLoop.eq_def]
  dsimp only
  rw [if_neg h1, if_pos h2]
  split
  · rename_i rest2
    exact absurd rfl (ho1 rest2)
  · rfl

theorem tokensLoop_newline {ts : List String} {tok : List Char}
    {inStr inSC inMC : Bool} {sc c : Char} {r : List Char}
    (h1 : ¬(c = '/' ∧ inStr = false ∧ inMC = false)) (h2 : ¬(c = '*' ∧ inMC = true))
    (h3 : c = '\n' ∧ inSC = true) :
    tokensLoop ts tok inStr inSC inMC sc (c :: r) = tokensLoop ts tok inStr false inMC sc r := by
  rw [tokensLoop.eq_def]
  dsimp only
  rw [if_neg h1, if_neg h2, if_pos h3]

theorem tokensLoop_quote_open {ts : List String} {tok : List Char}
    {inStr inSC inMC : Bool} {sc c : Char} {r : List Char}
    (h1 : ¬(c = '/' ∧ inStr = false ∧ inMC = false)) (h2 : ¬(c = '*' ∧ inMC = true))
    (h3 : ¬(c = '\n' ∧ inSC = true))
    (h4 : (c = '"' ∨ c = squote) ∧ inSC = false ∧ inMC = false) (hs : inStr = false) :
    tokensLoop ts tok inStr inSC inMC sc (c :: r) =
      tokensLoop (flushTokens tok ts) [] true inSC inMC c r := by
  rw [tokensLoop.eq_def]
  dsimp only
  rw [if_neg h1, if_neg h2, if_neg h3, if_pos h4, if_pos hs]

theorem tokensLoop_quote_close {ts : List String} {tok : List Char}
    {inStr inSC inMC : Bool} {sc c : Char} {r : List Char}
    (h1 : ¬(c = '/' ∧ inStr = false ∧ inMC = false)) (h2 : ¬(c = '*' ∧ inMC = true))
    (h3 : ¬(c = '\n' ∧ inSC = true))
    (h4 : (c = '"' ∨ c = squote) ∧ inSC = false ∧ inMC = false) (hs : inStr = true)
    (hcs : c = sc) :
    tokensLoop ts tok inStr inSC inMC sc (c :: r) =
      tokensLoop ts tok false inSC inMC '\x00' r := by
  rw [tokensLoop.eq_def]
  dsimp only
  rw [if_neg h1, if_neg h2, if_neg h3, if_pos h4, if_neg (by simp [hs]), if_pos hcs]

theorem tokensLoop_quote_skip {ts : List String} {tok : List Char}
    {inStr inSC inMC : Bool} {sc c : Char} {r : List Char}
    (h1 : ¬(c = '/' ∧ inStr = false ∧ inMC = false)) (h2 : ¬(c = '*' ∧ inMC = true))
    (h3 : ¬(c = '\n' ∧ inSC = true))
    (h4 : (c = '"' ∨ c = squote) ∧ inSC = false ∧ inMC = false) (hs : inStr = true)
    (hcs : ¬ c = sc) :
    tokensLoop ts tok inStr inSC inMC sc (c :: r) =
      tokensLoop ts tok inStr inSC inMC sc r := by
  rw [tokensLoop.eq_def]
  dsimp only
  rw [if_neg h1, if_neg h2, if_neg h3, if_pos h4, if_neg (by simp [hs]), if_neg hcs]

theorem tokensLoop_backslash_cons {ts : List String} {tok : List Char}
    {inStr inSC inMC : Bool} {sc c x : Char} {r : List Char}
    (h1 : ¬(c = '/' ∧ inStr = false ∧ inMC = false)) (h2 : ¬(c = '*' ∧ inMC = true))
    (h3 : ¬(c = '\n' ∧ inSC = true))
    (h4 : ¬((c = '"' ∨ c = squote) ∧ inSC = false ∧ inMC = false))
    (h5 : c = '\\' ∧ inStr = true) :
    tokensLoop ts tok inStr inSC inMC sc (c :: x :: r) =
      tokensLoop ts tok inStr inSC inMC sc r := by
  rw [tokensLoop.eq_def]
  dsimp only
  rw [if_neg h1, if_neg h2, if_neg h3, if_neg h4, if_pos h5]

theorem tokensLoop_backslash_nil {ts : List String} {tok : List Char}
    {inStr inSC inMC : Bool} {sc c : Char}
    (h1 : ¬(c = '/' ∧ inStr = false ∧ inMC = false)) (h2 : ¬(c = '*' ∧ inMC = true))
    (h3 : ¬(c = '\n' ∧ inSC = true))
    (h4 : ¬((c = '"' ∨ c = squote) ∧ inSC = false ∧ inMC = false))
    (h5 : c = '\\' ∧ inStr = true) :
    tokensLoop ts tok inStr inSC inMC sc [c] = ⟨inStr, inSC, inMC, sc, tok, ts⟩ := by
  rw [tokensLoop.eq_def]
  dsimp only
  rw [if_neg h1, if_neg h2, if_neg h3, if_neg h4, if_pos h5]

theorem tokensLoop_skip {ts : List String} {tok : List Char}
    {inStr inSC inMC : Bool} {sc c : Char} {r : List Char}
    (h1 : ¬(c = '/' ∧ inStr = false ∧ inMC = false)) (h2 : ¬(c = '*' ∧ inMC = true))
    (h3 : ¬(c = '\n' ∧ inSC = true))
    (h4 : ¬((c = '"' ∨ c = squote) ∧ inSC = false ∧ inMC = false))
    (h5 : ¬(c = '\\' ∧ inStr = true))
    (h6 : inStr = true ∨ inSC = true ∨ inMC = true) :
    tokensLoop ts tok inStr inSC inMC sc (c :: r) = tokensLoop ts tok inStr inSC inMC sc r := by
  rw [tokensLoop.eq_def]
  dsimp only
  rw [if_neg h1, if_neg h2, if_neg h3, if_neg h4, if_neg h5, if_pos h6]

theorem tokensLoop_ident {ts : List String} {tok : List Char}
    {inStr inSC inMC : Bool} {sc c : Char} {r : List Char}
    (h1 : ¬(c = '/' ∧ inStr = false ∧ inMC = false)) (h2 : ¬(c = '*' ∧ inMC = true))
    (h3 : ¬(c = '\n' ∧ inSC = true))
    (h4 : ¬((c = '"' ∨ c = squote) ∧ inSC = false ∧ inMC = false))
    (h5 : ¬(c = '\\' ∧ inStr = true))
    (h6 : ¬(inStr = true ∨ inSC = true ∨ inMC = true))
    (h7 : isIdentChar c = true) :
    tokensLoop ts tok inStr inSC inMC sc (c :: r) =
      tokensLoop ts (tok ++ [c]) inStr inSC inMC sc r := by
  rw [tokensLoop.eq_def]
  dsimp only
  rw [if_neg h1, if_neg h2, if_neg h3, if_neg h4, if_neg h5, if_neg h6, if_pos h7]

theorem tokensLoop_break {ts : List String} {tok : List Char}
    {inStr inSC inMC : Bool} {sc c : Char} {r : List Char}
    (h1 : ¬(c = '/' ∧ inStr = false ∧ inMC = false)) (h2 : ¬(c = '*' ∧ inMC = true))
    (h3 : ¬(c = '\n' ∧ inSC = true))
    (h4 : ¬((c = '"' ∨ c = squote) ∧ inSC = false ∧ inMC = false))
    (h5 : ¬(c = '\\' ∧ inStr = true))
    (h6 : ¬(inStr = true ∨ inSC = true ∨ inMC = true))
    (h7 : ¬ isIdentChar c = true) :
    tokensLoop ts tok inStr inSC inMC sc (c :: r) =
      tokensLoop (flushTokens tok ts) [] inStr inSC inMC sc r := by
  rw [tokensLoop.eq_def]
  dsimp only
  rw [if_neg h1, if_neg h2, if_neg h3, if_neg h4, if_neg h5, if_neg h6, if_neg h7]

end Rust

namespace Rust

/-- The keyword flush and the token flush stay in step: tallies after a flush
equal occurrence counts in the recorded-token list extended by the flushed
token. -/
theorem flushCounts_rel (tok : List Char) (m : List (String × Nat)) (ts : List String)
    (h : ∀ w ∈ RUST_KEYWORDS, lookupCount m w = List.count w ts) :
    ∀ w ∈ RUST_KEYWORDS,
      lookupCount (flushCounts RUST_KEYWORDS tok m) w = List.count w (flushTokens tok ts) := by
  intro w hw
  unfold flushCounts flushTokens
  by_cases htok : tok = []
  · simp [htok, h w hw]
  · rw [if_neg htok, if_neg htok]
    unfold checkAndCountToken
    by_cases hc : RUST_KEYWORDS.contains (String.mk tok)
    · rw [if_pos hc, lookup_addEntry, List.count_append, h w hw]
      by_cases htw : String.mk tok = w
      · simp [htw]
      · simp [List.count_cons, htw]
    · rw [if_neg hc, List.count_append, h w hw]
      have htw : ¬ String.mk tok = w := by
        intro hh
        rw [hh] at hc
        exact hc (by simpa using hw)
      simp [List.count_cons, htw]

/-- Lockstep between `scanLoop` and its token-collecting companion: both keep the
same token buffer, and for every keyword the tally equals the number of recorded
whole tokens equal to it. -/
theorem scanLoop_tokensLoop_rel :
    ∀ (n : Nat) (l : List Char), l.length ≤ n →
      ∀ (m : List (String × Nat)) (ts : List String) (tok : List Char)
        (inStr inSC inMC : Bool) (sc : Char),
        (∀ w ∈ RUST_KEYWORDS, lookupCount m w = List.count w ts) →
        (scanLoop m tok inStr inSC inMC sc l).currentToken =
            (tokensLoop ts tok inStr inSC inMC sc l).currentToken ∧
        (∀ w ∈ RUST_KEYWORDS,
          lookupCount (scanLoop m tok inStr inSC inMC sc l).counts w =
            List.count w (tokensLoop ts tok inStr inSC inMC sc l).tokens) := by
  intro n
  induction n with
  | zero =>
    intro l hl m ts tok inStr inSC inMC sc h
    rw [List.eq_nil_of_length_eq_zero (Nat.le_zero.mp hl)]
    exact ⟨rfl, h⟩
  | succ n ih =>
    intro l hl m ts tok inStr inSC inMC sc h
    match l, hl with
    | [], _ => exact ⟨rfl, h⟩
    | c :: rest, hl =>
      have hlen : rest.length ≤ n := by
        simp only [List.length_cons] at hl
        omega
      by_cases h1 : c = '/' ∧ inStr = false ∧ inMC = false
      · match rest, hlen with
        | [], _ =>
          rw [scanLoop_slash_other h1 (fun _ => List.noConfusion) (fun _ => List.noConfusion),
            tokensLoop_slash_other h1 (fun _ => List.noConfusion) (fun _ => List.noConfusion)]
          exact ⟨rfl, h⟩
        | c2 :: rest2, hlen =>
          have hlen2 : rest2.length ≤ n := by
            simp only [List.length_cons] at hlen
            omega
          by_cases hc2 : c2 = '/'
          · subst hc2
            rw [scanLoop_slash_slash h1, tokensLoop_slash_slash h1]
            exact ih rest2 hlen2 _ _ _ _ _ _ _ (flushCounts_rel tok m ts h)
          · by_cases hc3 : c2 = '*'
            · subst hc3
              rw [scanLoop_slash_star h1, tokensLoop_slash_star h1]
              exact ih rest2 hlen2 _ _ _ _ _ _ _ (flushCounts_rel tok m ts h)
            · have hno1 : ∀ r2, (c2 :: rest2) ≠ '/' :: r2 := by
                intro r2 hh
                rw [List.cons.injEq] at hh
                exact hc2 hh.1
              have hno2 : ∀ r2, (c2 :: rest2) ≠ '*' :: r2 := by
                intro r2 hh
                rw [List.cons.injEq] at hh
                exact hc3 hh.1
              rw [scanLoop_slash_other h1 hno1 hno2, tokensLoop_slash_other h1 hno1 hno2]
              exact ih (c2 :: rest2) hlen _ _ _ _ _ _ _ h
      · by_cases h2 : c = '*' ∧ inMC = true
        · match rest, hlen with
          | [], _ =>
            rw [scanLoop_star_other h1 h2 (fun _ => List.noConfusion),
              tokensLoop_star_other h1 h2 (fun _ => List.noConfusion)]
            exact ⟨rfl, h⟩
          | c2 :: rest2, hlen =>
            have hlen2 : rest2.length ≤ n := by
              simp only [List.length_cons] at hlen
              omega
            by_cases hc2 : c2 = '/'
            · subst hc2
              rw [scanLoop_star_slash h1 h2, tokensLoop_star_slash h1 h2]
              exact ih rest2 hlen2 _ _ _ _ _ _ _ h
            · have hno1 : ∀ r2, (c2 :: rest2) ≠ '/' :: r2 := by
                intro r2 hh
                rw [List.cons.injEq] at hh
                exact hc2 hh.1
              rw [scanLoop_star_other h1 h2 hno1, tokensLoop_star_other h1 h2 hno1]
              exact ih (c2 :: rest2) hlen _ _ _ _ _ _ _ h
        · by_cases h3 : c = '\n' ∧ inSC = true
          · rw [scanLoop_newline h1 h2 h3, tokensLoop_newline h1 h2 h3]
            exact ih rest hlen _ _ _ _ _ _ _ h
          · by_cases h4 : (c = '"' ∨ c = squote) ∧ inSC = false ∧ inMC = false
            · by_cases hstr : inStr = false
              · rw [scanLoop_quote_open h1 h2 h3 h4 hstr,
                  tokensLoop_quote_open h1 h2 h3 h4 hstr]
                exact ih rest hlen _ _ _ _ _ _ _ (flushCounts_rel tok m ts h)
              · have hstr' : inStr = true := by
                  cases inStr
                  · exact absurd rfl hstr
                  · rfl
                by_cases hcs : c = sc
                · rw [scanLoop_quote_close h1 h2 h3 h4 hstr' hcs,
                    tokensLoop_quote_close h1 h2 h3 h4 hstr' hcs]
                  exact ih rest hlen _ _ _ _ _ _ _ h
                · rw [scanLoop_quote_skip h1 h2 h3 h4 hstr' hcs,
                    tokensLoop_quote_skip h1 h2 h3 h4 hstr' hcs]
                  exact ih rest hlen _ _ _ _ _ _ _ h
            · by_cases h5 : c = '\\' ∧ inStr = true
              · match rest, hlen with
                | [], _ =>
                  rw [scanLoop_backslash_nil h1 h2 h3 h4 h5,
                    tokensLoop_backslash_nil h1 h2 h3 h4 h5]
                  exact ⟨rfl, h⟩
                | x :: rest2, hlen =>
                  have hlen2 : rest2.length ≤ n := by
                    simp only [List.length_cons] at hlen
                    omega
                  rw [scanLoop_backslash_cons h1 h2 h3 h4 h5,
                    tokensLoop_backslash_cons h1 h2 h3 h4 h5]
                  exact ih rest2 hlen2 _ _ _ _ _ _ _ h
              · by_cases h6 : inStr = true ∨ inSC = true ∨ inMC = true
                · rw [scanLoop_skip h1 h2 h3 h4 h5 h6, tokensLoop_skip h1 h2 h3 h4 h5 h6]
                  exact ih rest hlen _ _ _ _ _ _ _ h
                · by_cases h7 : isIdentChar c = true
                  · rw [scanLoop_ident h1 h2 h3 h4 h5 h6 h7,
                      tokensLoop_ident h1 h2 h3 h4 h5 h6 h7]
                    exact ih rest hlen _ _ _ _ _ _ _ h
                  · rw [scanLoop_break h1 h2 h3 h4 h5 h6 h7,
                      tokensLoop_break h1 h2 h3 h4 h5 h6 h7]
                    exact ih rest hlen _ _ _ _ _ _ _ (flushCounts_rel tok m ts h)

/-- Flushing preserves wellformedness of the recorded tokens. -/
theorem flushTokens_wf (tok : List Char) (ts : List String)
    (htok : ∀ ch ∈ tok, isIdentChar ch = true)
    (hts : ∀ t ∈ ts, t.data ≠ [] ∧ ∀ ch ∈ t.data, isIdentChar ch = true) :
    ∀ t ∈ flushTokens tok ts, t.data ≠ [] ∧ ∀ ch ∈ t.data, isIdentChar ch = true := by
  unfold flushTokens
  split
  · exact hts
  · rename_i hne
    intro t ht
    rcases List.mem_append.mp ht with hh | hh
    · exact hts t hh
    · rw [List.mem_singleton.mp hh]
      exact ⟨hne, htok⟩

/-- Every token the companion loop records is a non-empty string of identifier
characters. -/
theorem tokensLoop_wf :
    ∀ (n : Nat) (l : List Char), l.length ≤ n →
      ∀ (ts : List String) (tok : List Char) (inStr inSC inMC : Bool) (sc : Char),
        (∀ ch ∈ tok, isIdentChar ch = true) →
        (∀ t ∈ ts, t.data ≠ [] ∧ ∀ ch ∈ t.data, isIdentChar ch = true) →
        (∀ ch ∈ (tokensLoop ts tok inStr inSC inMC sc l).currentToken,
            isIdentChar ch = true) ∧
        (∀ t ∈ (tokensLoop ts tok inStr inSC inMC sc l).tokens,
          t.data ≠ [] ∧ ∀ ch ∈ t.data, isIdentChar ch = true) := by
  intro n
  induction n with
  | zero =>
    intro l hl ts tok inStr inSC inMC sc htok hts
    rw [List.eq_nil_of_length_eq_zero (Nat.le_zero.mp hl)]
    exact ⟨htok, hts⟩
  | succ n ih =>
    intro l hl ts tok inStr inSC inMC sc htok hts
    match l with
    | [] => exact ⟨htok, hts⟩
    | c :: rest =>
      have hr : rest.length ≤ n := by
        simp only [List.length_cons] at hl
        omega
      rw [tokensLoop.eq_def]
      dsimp only
      repeat' split
      all_goals try exact ih _ hr _ _ _ _ _ _ htok hts
      all_goals try exact ih _ hr _ _ _ _ _ _ (by simp) (flushTokens_wf tok ts htok hts)
      all_goals try exact ⟨htok, hts⟩
      all_goals try (refine ih _ ?_ _ _ _ _ _ _ htok hts
                     simp only [List.length_cons] at hr; omega)
      all_goals try (refine ih _ ?_ _ _ _ _ _ _ (by simp) (flushTokens_wf tok ts htok hts)
                     simp only [List.length_cons] at hr; omega)
      all_goals
        refine ih _ hr _ _ _ _ _ _ ?_ hts
        intro ch hch
        rcases List.mem_append.mp hch with hh | hh
        · exact htok ch hh
        · rw [List.mem_singleton.mp hh]
          assumption

end Rust

/-! ### Claim theorems -/

set_option maxHeartbeats 1600000 in
/-- C1: the claim states that in every scanner a reserved word occurring solely
inside a string literal is never counted, the character after a backslash being
unconditionally consumed.  The JavaScript scanner has no escape arm, so in
`x = "a\" let b"` the escaped quote terminates the string and the `let` that
lies inside the string literal is counted once — while the Rust scanner on the
same content consumes the escaped quote and counts nothing.  This evaluates the
code at the failing input. -/
theorem C1_javascript_escape_bug :
    lookupCount (Javascript.count_keywords "x = \"a\\\" let b\"".data) "let" = 1 ∧
    lookupCount (Rust.count_keywords "x = \"a\\\" let b\"".data) "let" = 0 := by
  constructor <;> rfl

set_option maxHeartbeats 1600000 in
/-- C3 (counterexample): on the Go scenario input the scanner also counts `real`
(a Go built-in function name contained in `GOLANG_KEYWORDS`), so the returned map
is not exactly `{"package": 1, "func": 1}`. -/
theorem C3_go_scenario_counterexample :
    lookupCount
      (Golang.count_keywords "package main\n/* func var const */ func real() \x7b\x7d".data)
      "real" = 1 := by
  rfl

set_option maxHeartbeats 1600000 in
/-- C3 (amended): the Go scenario input yields exactly the map
`{"package": 1, "func": 1, "real": 1}` — `var` and `const` inside the block
comment are excluded, and no keyword other than these three is counted. -/
theorem C3_go_scenario_amended (k : String) :
    lookupCount
      (Golang.count_keywords "package main\n/* func var const */ func real() \x7b\x7d".data)
      k = if k = "package" ∨ k = "func" ∨ k = "real" then 1 else 0 := by
  rw [show Golang.count_keywords
        "package main\n/* func var const */ func real() \x7b\x7d".data =
      [("package", 1), ("func", 1), ("real", 1)] from by rfl]
  by_cases h1 : k = "package"
  · subst h1; rfl
  · by_cases h2 : k = "func"
    · subst h2; rfl
    · by_cases h3 : k = "real"
      · subst h3; rfl
      · simp only [lookupCount]
        rw [if_neg (fun h => h1 h.symm), if_neg (fun h => h2 h.symm),
          if_neg (fun h => h3 h.symm)]
        simp [h1, h2, h3]

/-- C4 (counterexample): the Python classifier lowercases the extension, so
`test.PY` — whose extension differs from `py` only in letter case — is accepted
as a source file, contradicting case-sensitive matching. -/
theorem C4_classifier_counterexample : Python.is_python_file "test.PY" = true := by rfl

/-- C4 (amended): the Rust and Ruby classifiers compare the extracted extension
exactly and case-sensitively, and convention file names are matched exactly; the
Python (and Dart) classifiers instead lowercase the extension first, so an
extension differing only in letter case is still accepted there. -/
theorem C4_classifier_amended :
    (∀ p, pathExtension p = some "RS" → Rust.is_rust_file p = false) ∧
    (∀ p, pathExtension p = some "rs" → Rust.is_rust_file p = true) ∧
    (∀ p, pathExtension p = some "RB" → Ruby.is_ruby_file p = false) ∧
    (∀ p, pathExtension p = some "PY" → Python.is_python_file p = true) ∧
    Ruby.is_ruby_file "Rakefile" = true ∧ Ruby.is_ruby_file "rakefile" = false ∧
    Python.is_python_file "Pipfile" = true ∧ Python.is_python_file "__init__" = true := by
  refine ⟨?_, ?_, ?_, ?_, by rfl, by rfl, by rfl, by rfl⟩ <;>
    intro p h <;> simp [Rust.is_rust_file, Ruby.is_ruby_file, Python.is_python_file, h]
  decide

/-- C4 (witness): the amended classifier facts applied at concrete paths. -/
theorem C4_classifier_witness :
    pathExtension "a.RS" = some "RS" ∧ Rust.is_rust_file "a.RS" = false ∧
    pathExtension "b.PY" = some "PY" ∧ Python.is_python_file "b.PY" = true ∧
    pathExtension "c.rs" = some "rs" ∧ Rust.is_rust_file "c.rs" = true :=
  ⟨by rfl, C4_classifier_amended.1 "a.RS" (by rfl), by rfl,
   C4_classifier_amended.2.2.2.1 "b.PY" (by rfl), by rfl,
   C4_classifier_amended.2.1 "c.rs" (by rfl)⟩

set_option maxHeartbeats 1600000 in
/-- C9: in the Python scanner, two consecutive identical quotes not followed by a
third (an empty string literal) leave the scanner in open-string state: on
`x = '' def foo` the `def` after the empty literal is swallowed (no keyword
counted, and the final state has `in_string` set), whereas after a closed
non-empty literal `'a'` the `def` is counted. -/
theorem C9_python_empty_string :
    Python.count_keywords "x = '' def foo".data = [] ∧
    (Python.scanLoop "x = '' def foo".data.length [] [] false false '\x00' false '\x00'
        "x = '' def foo".data).inString = true ∧
    lookupCount (Python.count_keywords "x = 'a' def foo".data) "def" = 1 := by
  exact ⟨by rfl, by rfl, by rfl⟩

/-- C10: a root path that does not exist (neither `is_file` nor `is_dir`), or a
root file rejected by `is_rust_file`, makes `analyze_directory` return `Ok`
without modifying the totals map or the file counter. -/
theorem C10_missing_or_rejected_root :
    (∀ (path : String) (tc : List (String × Nat)) (fc : Nat),
        Rust.analyze_directory path none tc fc = .ok (tc, fc)) ∧
    (∀ (path : String) (content : List Char) (tc : List (String × Nat)) (fc : Nat),
        Rust.is_rust_file path = false →
        Rust.analyze_directory path (some (.file content)) tc fc = .ok (tc, fc)) := by
  constructor
  · intro path tc fc
    simp [Rust.analyze_directory]
  · intro path content tc fc h
    simp [Rust.analyze_directory, h]

/-- C10 (witness): the two cases at concrete inputs. -/
theorem C10_missing_or_rejected_root_witness :
    Rust.is_rust_file "README.md" = false ∧
    Rust.analyze_directory "README.md" (some (.file "fn".data)) [("let", 1)] 4 =
      .ok ([("let", 1)], 4) ∧
    Rust.analyze_directory "missing" none [("fn", 3)] 2 = .ok ([("fn", 3)], 2) :=
  ⟨by rfl, C10_missing_or_rejected_root.2 "README.md" "fn".data [("let", 1)] 4 (by rfl),
   C10_missing_or_rejected_root.1 "missing" [("fn", 3)] 2⟩

/-- C7: merging per-file count maps through `add_file` is commutative — for any
permutation of the batch, the aggregated `keyword_counts` agree on every key and
the reported `total_keywords` coincide. -/
theorem C7_merge_commutative (l1 l2 : List (String × List (String × Nat)))
    (h : l1.Perm l2) :
    (∀ k, lookupCount (foldAddFiles l1).keyword_counts k =
        lookupCount (foldAddFiles l2).keyword_counts k) ∧
    (foldAddFiles l1).total_keywords = (foldAddFiles l2).total_keywords := by
  constructor
  · intro k
    rw [foldAddFiles, foldAddFiles, addFile_foldl_lookup, addFile_foldl_lookup]
    have hs := (h.map (fun op => keySum op.2 k)).sum_eq
    omega
  · rw [foldAddFiles, foldAddFiles, addFile_foldl_total, addFile_foldl_total]
    have hs := (h.map (fun op => valsSum op.2)).sum_eq
    omega

/-- C7 (witness): two concrete batches in swapped order yield the same totals and
the same count for `fn`. -/
theorem C7_merge_commutative_witness :
    (foldAddFiles [("a", [("fn", 1)]), ("b", [("let", 2), ("fn", 3)])]).total_keywords =
      (foldAddFiles [("b", [("let", 2), ("fn", 3)]), ("a", [("fn", 1)])]).total_keywords ∧
    lookupCount
        (foldAddFiles [("a", [("fn", 1)]), ("b", [("let", 2), ("fn", 3)])]).keyword_counts
        "fn" =
      lookupCount
        (foldAddFiles [("b", [("let", 2), ("fn", 3)]), ("a", [("fn", 1)])]).keyword_counts
        "fn" :=
  ⟨(C7_merge_commutative _ _ (by decide)).2, (C7_merge_commutative _ _ (by decide)).1 "fn"⟩

/-- C8: scanning the same content twice and merging both result maps into a fresh
aggregate doubles every keyword count exactly. -/
theorem C8_double_scan (s : List Char) (p1 p2 : String) (k : String) :
    lookupCount
      (((AnalysisResult.new SharedLib.Language.Rust).add_file p1
          (Rust.count_keywords s)).add_file p2 (Rust.count_keywords s)).keyword_counts k =
      2 * lookupCount (Rust.count_keywords s) k := by
  have hks := keySum_of_uniq (Rust.count_keywords s) k (Rust.count_keywords_uniqKeys s)
  rw [show (((AnalysisResult.new SharedLib.Language.Rust).add_file p1
        (Rust.count_keywords s)).add_file p2 (Rust.count_keywords s)).keyword_counts =
      mergeInto (mergeInto [] (Rust.count_keywords s)) (Rust.count_keywords s) from rfl,
    lookup_mergeInto, lookup_mergeInto]
  simp [lookupCount]
  omega

/-- C2 (counterexample): `analyze_path` on a single matching file reports
`file_count = 1` but leaves `files_analyzed` empty, so
`file_count == len(files_analyzed)` fails. -/
theorem C2_files_analyzed_counterexample :
    KeywordAnalyzer.analyze_path "main.rs" (some (FsEntry.file ("fn main() \x7b\x7d".data))) =
      Except.ok { language := SharedLib.Language.Rust, file_count := 1, total_keywords := 1,
                  keyword_counts := [("fn", 1)], files_analyzed := [] } ∧
    (1 : Nat) ≠ ([] : List String).length := by
  refine ⟨?_, by decide⟩
  unfold KeywordAnalyzer.analyze_path
  rw [show Rust.analyze_directory "main.rs"
        (some (FsEntry.file ("fn main() \x7b\x7d".data))) [] 0 = .ok ([("fn", 1)], 1) from by
    simp [Rust.analyze_directory, show Rust.is_rust_file "main.rs" = true from rfl]
    rfl]
  rfl

/-- C2 (amended): every result built through `add_file` satisfies both invariants
(`sum(keyword_counts.values()) = total_keywords` and
`file_count = len(files_analyzed)`); a result returned by `analyze_path` (on a
non-git path, where the model applies) satisfies the first invariant, but its
`files_analyzed` is left empty, so the second holds only when no file was
analyzed. -/
theorem C2_invariant_amended :
    (∀ ops : List (String × List (String × Nat)),
        valsSum (foldAddFiles ops).keyword_counts = (foldAddFiles ops).total_keywords ∧
        (foldAddFiles ops).file_count = (foldAddFiles ops).files_analyzed.length) ∧
    (∀ (path : String) (target : Option FsEntry) (r : AnalysisResult),
        is_git_url path = false →
        KeywordAnalyzer.analyze_path path target = Except.ok r →
        valsSum r.keyword_counts = r.total_keywords ∧ r.files_analyzed = []) := by
  constructor
  · intro ops
    constructor
    · rw [foldAddFiles, addFile_foldl_valsSum, addFile_foldl_total]
      simp [AnalysisResult.new, valsSum]
    · rw [foldAddFiles, addFile_foldl_file_count, addFile_foldl_files_len]
      simp [AnalysisResult.new]
  · intro path target r _ h
    unfold KeywordAnalyzer.analyze_path at h
    cases hd : Rust.analyze_directory path target [] 0 with
    | error e => rw [hd] at h; simp at h
    | ok p =>
      obtain ⟨tc, fc⟩ := p
      rw [hd] at h
      simp only [Except.ok.injEq] at h
      rw [← h]
      exact ⟨rfl, rfl⟩

/-- C2 (witness): the amended invariants at concrete inputs. -/
theorem C2_invariant_witness :
    (valsSum (foldAddFiles [("a", [("fn", 2), ("let", 1)])]).keyword_counts =
        (foldAddFiles [("a", [("fn", 2), ("let", 1)])]).total_keywords ∧
      (foldAddFiles [("a", [("fn", 2), ("let", 1)])]).file_count =
        (foldAddFiles [("a", [("fn", 2), ("let", 1)])]).files_analyzed.length) ∧
    is_git_url "main.rs" = false ∧
    valsSum [("fn", 1)] = 1 :=
  ⟨C2_invariant_amended.1 _, by rfl,
    (C2_invariant_amended.2 "main.rs" (some (FsEntry.file ("fn main() \x7b\x7d".data)))
        { language := SharedLib.Language.Rust, file_count := 1, total_keywords := 1,
          keyword_counts := [("fn", 1)], files_analyzed := [] } (by rfl)
        (by
          unfold KeywordAnalyzer.analyze_path
          rw [show Rust.analyze_directory "main.rs"
                (some (FsEntry.file ("fn main() \x7b\x7d".data))) [] 0 =
              .ok ([("fn", 1)], 1) from by
            simp [Rust.analyze_directory, show Rust.is_rust_file "main.rs" = true from rfl]
            rfl]
          rfl)).1⟩

/-- C5: if the prefix `a` leaves the scanner in plain code state, the quote that
follows opens a string literal, and the remaining characters `b` never close it
(escapes included — `stringStays` consumes the character after each backslash),
then `count_keywords` returns the same map as if the input had stopped at the
quote: the scan completes normally (the function is total by construction) and no
identifier token inside the unterminated literal contributes to any count. -/
theorem C5_unterminated_string (a b : List Char) (q : Char)
    (hq : q = '"' ∨ q = squote)
    (hcode : (Rust.scanLoop [] [] false false false '\x00' a).isCode = true)
    (hb : Rust.stringStays q b = true) :
    Rust.count_keywords (a ++ q :: b) = Rust.count_keywords (a ++ [q]) := by
  unfold Rust.count_keywords
  rw [Rust.scanLoop_unterminated q hq b hb a.length a le_rfl [] [] false false false '\x00'
    hcode]

set_option maxHeartbeats 1600000 in
/-- C5 (witness): the unterminated-string theorem at the concrete content
`let x = "unterminated fn let` (and its hypotheses, evaluated). -/
theorem C5_unterminated_string_witness :
    ('"' = '"' ∨ '"' = squote) ∧
    (Rust.scanLoop [] [] false false false '\x00' ("let x = ".data)).isCode = true ∧
    Rust.stringStays '"' ("unterminated fn let".data) = true ∧
    Rust.count_keywords ("let x = ".data ++ '"' :: "unterminated fn let".data) =
      Rust.count_keywords ("let x = ".data ++ ['"']) :=
  ⟨Or.inl rfl, by rfl, by rfl,
    C5_unterminated_string _ _ _ (Or.inl rfl) (by rfl) (by rfl)⟩

/-- C6: keyword membership is only ever tested on whole accumulated tokens — for
every content and keyword `w`, the tally of `w` equals the number of whole
flushed tokens equal to `w`, and every flushed token is a non-empty run of
identifier characters.  In particular an occurrence of `w` strictly inside a
longer identifier (which is flushed as one longer token) contributes zero. -/
theorem C6_whole_tokens (s : List Char) (w : String) (hw : w ∈ RUST_KEYWORDS) :
    lookupCount (Rust.count_keywords s) w = List.count w (Rust.tokens s) ∧
    ∀ t ∈ Rust.tokens s, t.data ≠ [] ∧ ∀ ch ∈ t.data, isIdentChar ch = true := by
  obtain ⟨htok, hrel⟩ := Rust.scanLoop_tokensLoop_rel s.length s le_rfl [] [] [] false false
    false '\x00' (fun w _ => rfl)
  constructor
  · unfold Rust.count_keywords Rust.tokens
    dsimp only
    rw [htok]
    exact Rust.flushCounts_rel _ _ _ hrel w hw
  · unfold Rust.tokens
    dsimp only
    have hwf := Rust.tokensLoop_wf s.length s le_rfl [] [] false false false '\x00'
      (by simp) (by simp)
    exact Rust.flushTokens_wf _ _ hwf.1 hwf.2

set_option maxHeartbeats 1600000 in
/-- C6 (witness): on `let lettering = 1` the keyword `let` is counted once — the
token `lettering` does not contribute although `let` is a strict prefix of it. -/
theorem C6_whole_tokens_witness :
    "let" ∈ RUST_KEYWORDS ∧
    lookupCount (Rust.count_keywords ("let lettering = 1".data)) "let" =
      List.count "let" (Rust.tokens ("let lettering = 1".data)) ∧
    lookupCount (Rust.count_keywords ("let lettering = 1".data)) "let" = 1 :=
  ⟨by decide, (C6_whole_tokens _ "let" (by decide)).1, by rfl⟩
